import Mathlib

/-!
Verification of the sqlite-sync CRDT core (src/src/cloudsync.c, src/src/dbutils.c)
against its natural-language specification.

The development shallowly embeds the parts of the C source the claims talk
about: SQLite values and `dbutils_value_compare`, the per-connection version
clock (`db_version_next`, `cloudsync_commit_hook`), the payload codec
(`cloudsync_payload_encode_step/final`, `cloudsync_payload_apply`,
`cloudsync_payload_decode`) and the per-table meta-table state machine
(local capture `cloudsync_insert/update/delete` and the CLS/GOS merge engine
`cloudsync_merge_insert`).  Machine integers are modelled as `Int` (the
counters involved never overflow 64 bits in the modelled scenarios), C blobs
and strings as `List Nat` of bytes, and SQL tables as Lean lists.
-/

namespace CloudSync

/-! ## SQLite values and dbutils_value_compare (src/src/dbutils.c:212-257) -/

/-- A SQLite value of one of the five storage classes.  Doubles are modelled
as rationals: the spec restricts attention to NaN-free doubles, for which
IEEE-754 comparison agrees with the ordered-field comparison.  TEXT values
are the bytes of the NUL-terminated C string (without the terminator, no
interior NUL); BLOB values are raw bytes. -/
inductive SQLiteValue where
  | null
  | integer (i : Int)
  | float (q : ℚ)
  | text (bytes : List Nat)
  | blob (bytes : List Nat)
  deriving DecidableEq, Repr

/-- SQLite storage-class codes as defined in sqlite3.h:
SQLITE_INTEGER = 1, SQLITE_FLOAT = 2, SQLITE_TEXT = 3, SQLITE_BLOB = 4,
SQLITE_NULL = 5.  This is the value sqlite3_value_type returns. -/
def sqlite_value_type : SQLiteValue → Int
  | .integer _ => 1
  | .float _ => 2
  | .text _ => 3
  | .blob _ => 4
  | .null => 5

/-- Sign of a lexicographic byte comparison.  This models the sign of both
`strcmp` (on NUL-terminated strings without interior NUL: the terminator 0 is
smaller than every string byte, so the shorter string, when a strict prefix,
compares smaller) and `memcmp` on equal-length regions.  C guarantees only
the sign of these functions, and every caller in the source uses only the
sign. -/
def bytesCompare : List Nat → List Nat → Int
  | [], [] => 0
  | [], _ :: _ => -1
  | _ :: _, [] => 1
  | a :: as, b :: bs => if a < b then -1 else if b < a then 1 else bytesCompare as bs

/-- Model of dbutils_value_compare (src/src/dbutils.c:212-257).  The argument
is an `Option` because the C function accepts NULL pointers (the local value
is passed as a NULL pointer by merge_did_cid_win when the user-table row is
missing).  The initial C pointer-equality shortcut (`lvalue == rvalue`) is
not modelled separately: identical pointers hold identical values, for which
every later branch also returns 0. -/
def dbutils_value_compare (lvalue rvalue : Option SQLiteValue) : Int :=
  match lvalue, rvalue with
  | none, none => 0
  | none, some _ => -1
  | some _, none => 1
  | some l, some r =>
    if sqlite_value_type l ≠ sqlite_value_type r then
      sqlite_value_type r - sqlite_value_type l
    else
      match l, r with
      | .integer a, .integer b => if a < b then -1 else if b < a then 1 else 0
      | .float a, .float b => if a < b then -1 else if b < a then 1 else 0
      | .text a, .text b => bytesCompare a b
      | .blob a, .blob b =>
        let n := min a.length b.length
        let cmp := bytesCompare (a.take n) (b.take n)
        if cmp ≠ 0 then cmp else (a.length : Int) - (b.length : Int)
      | _, _ => 0

/-- The ordering of storage classes asserted by the specification sentence
behind claim C2: NULL < INTEGER < FLOAT < TEXT < BLOB.  This definition
follows the words of the spec, not the code; it exists to state the
counterexample. -/
def spec_storage_rank : SQLiteValue → Nat
  | .null => 0
  | .integer _ => 1
  | .float _ => 2
  | .text _ => 3
  | .blob _ => 4

/-- The storage-class ordering the code actually implements: for values of
different storage classes `dbutils_value_compare` returns
`r_type - l_type`, i.e. it orders classes by descending SQLite type code:
NULL (code 5) < BLOB (4) < TEXT (3) < FLOAT (2) < INTEGER (1). -/
def code_storage_rank : SQLiteValue → Nat
  | .null => 1
  | .blob _ => 2
  | .text _ => 3
  | .float _ => 4
  | .integer _ => 5

/-! ## Version clock (src/src/cloudsync.c:426-436, 1577-1592) -/

def CLOUDSYNC_VALUE_NOTSET : Int := -1

/-- Per-connection version-clock state (fields db_version,
pending_db_version and seq of cloudsync_context). -/
structure ClockState where
  db_version : Int
  pending_db_version : Int
  seq : Int
  deriving DecidableEq, Repr

/-- Model of db_version_next (src/src/cloudsync.c:426-436) on the path in
which db_version_check_uptodate succeeds without re-querying (the committed
db_version is loaded and the data_version pragma is unchanged, which is the
state claim C8 quantifies over).  Returns the result and the updated clock. -/
def db_version_next (c : ClockState) (merging_version : Int) : Int × ClockState :=
  let r1 := c.db_version + 1
  let r2 := if r1 < c.pending_db_version then c.pending_db_version else r1
  let r3 := if merging_version ≠ CLOUDSYNC_VALUE_NOTSET ∧ r2 < merging_version then
      merging_version else r2
  (r3, { c with pending_db_version := r3 })

/-- Model of BUMP_SEQ (src/src/cloudsync.c:109): increments seq and returns
the pre-increment value. -/
def bump_seq (c : ClockState) : Int × ClockState :=
  (c.seq, { c with seq := c.seq + 1 })

/-- Model of cloudsync_commit_hook (src/src/cloudsync.c:1577-1585). -/
def cloudsync_commit_hook (c : ClockState) : ClockState :=
  { db_version := c.pending_db_version,
    pending_db_version := CLOUDSYNC_VALUE_NOTSET,
    seq := 0 }

/-! ## Meta table and table registry -/

/-- Primary keys appear throughout the core only through their deterministic
binary encoding (the PK codec of pk.c, a separate source file); the model
treats the encoded key as an opaque value.  Two PK tuples are equal iff
their encodings are equal. -/
abbrev Pk := Nat

abbrev ColName := String

/-- Site identifiers are 16-byte UUIDv7 blobs. -/
abbrev SiteBlob := List Nat

/-- The tombstone sentinel column name (CLOUDSYNC_TOMBSTONE_VALUE). -/
def CLOUDSYNC_TOMBSTONE_VALUE : ColName := "__[RIP]__"

/-- One row of a per-table meta (shadow) table
`T_cloudsync(pk, col_name, col_version, db_version, seq, site_id)`,
PRIMARY KEY (pk, col_name).  site_id is the local ordinal (0 = local site). -/
structure MetaRow where
  pk : Pk
  col_name : ColName
  col_version : Int
  db_version : Int
  seq : Int
  site_id : Nat
  deriving DecidableEq, Repr

/-- One row of the managed user table: its primary key and its non-PK column
values, in the column order of the table registry. -/
structure UserRow where
  pk : Pk
  vals : List SQLiteValue
  deriving DecidableEq, Repr

/-- CRDT algorithms with an implementation in the source (dws and aws are
recognised by name only; their merge behaviour is undefined). -/
inductive TableAlgo where
  | cls
  | gos
  deriving DecidableEq, Repr

/-- The registry entry of one managed table: its non-PK column names in cid
order, and its CRDT algorithm.  Column-name comparisons in the C source are
case-insensitive; the model compares names exactly and assumes the change
stream uses the registered spelling. -/
structure TableCfg where
  cols : List ColName
  algo : TableAlgo
  deriving DecidableEq, Repr

/-- Wellformedness of a registry entry: the tombstone sentinel is never a
real column name (init rejects user columns named like the sentinel). -/
def CfgWF (cfg : TableCfg) : Prop := CLOUDSYNC_TOMBSTONE_VALUE ∉ cfg.cols

/-- The per-connection database state the claims quantify over: one managed
user table, its meta table, the version clock and the site-id registry
(cloudsync_site_id; index i of the list is the remote ordinal i+1, ordinal
0 being the local site). -/
structure DBState where
  user : List UserRow
  meta : List MetaRow
  clock : ClockState
  sites : List SiteBlob
  deriving DecidableEq, Repr

/-- Lookup of a meta row by its primary key (pk, col_name). -/
def metaFind (m : List MetaRow) (pk : Pk) (col : ColName) : Option MetaRow :=
  m.find? fun r => decide (r.pk = pk ∧ r.col_name = col)

/-- Generic model of `INSERT ... ON CONFLICT DO UPDATE`-shaped statements on
the meta table: if a row with the key exists it is updated in place with
`upd`, otherwise `fresh` is inserted. -/
def metaUpsert (m : List MetaRow) (pk : Pk) (col : ColName)
    (fresh : MetaRow) (upd : MetaRow → MetaRow) : List MetaRow :=
  if m.any (fun r => decide (r.pk = pk ∧ r.col_name = col)) then
    m.map fun r => if r.pk = pk ∧ r.col_name = col then upd r else r
  else m ++ [fresh]

/-- Model of meta_sentinel_update_stmt (src/src/cloudsync.c:697):
`UPDATE T_cloudsync SET col_version = CASE col_version % 2 WHEN 0 THEN
col_version + 1 ELSE col_version + 2 END, db_version = ?, seq = ?,
site_id = 0 WHERE pk = ? AND col_name = sentinel`.  The SQL remainder
operator truncates like C; it agrees with Lean `%` (Int.emod) on the
nonnegative col_version counters that occur in every reachable state. -/
def local_update_sentinel (m : List MetaRow) (pk : Pk) (dv sq : Int) : List MetaRow :=
  m.map fun r =>
    if r.pk = pk ∧ r.col_name = CLOUDSYNC_TOMBSTONE_VALUE then
      { r with
        col_version := if r.col_version % 2 = 0 then r.col_version + 1 else r.col_version + 2,
        db_version := dv, seq := sq, site_id := 0 }
    else r

/-- Model of meta_sentinel_insert_stmt (src/src/cloudsync.c:706): insert a
sentinel row with col_version 1, or on conflict bump the existing sentinel
to the next odd value. -/
def local_mark_insert_sentinel_meta (m : List MetaRow) (pk : Pk) (dv sq : Int) : List MetaRow :=
  metaUpsert m pk CLOUDSYNC_TOMBSTONE_VALUE ⟨pk, CLOUDSYNC_TOMBSTONE_VALUE, 1, dv, sq, 0⟩
    fun r =>
      { r with
        col_version := if r.col_version % 2 = 0 then r.col_version + 1 else r.col_version + 2,
        db_version := dv, seq := sq, site_id := 0 }

/-- Model of meta_row_insert_update_stmt (src/src/cloudsync.c:715) as used
by local_mark_insert_or_update_meta_impl: insert (pk, col, cv0) or on
conflict set col_version = col_version + 1. -/
def local_mark_insert_or_update_meta_impl (m : List MetaRow) (pk : Pk) (col : ColName)
    (cv0 dv sq : Int) : List MetaRow :=
  metaUpsert m pk col ⟨pk, col, cv0, dv, sq, 0⟩
    fun r => { r with col_version := r.col_version + 1, db_version := dv, seq := sq, site_id := 0 }

/-- local_mark_insert_or_update_meta (src/src/cloudsync.c:1844): column
upsert with initial col_version 1. -/
def local_mark_insert_or_update_meta (m : List MetaRow) (pk : Pk) (col : ColName)
    (dv sq : Int) : List MetaRow :=
  local_mark_insert_or_update_meta_impl m pk col 1 dv sq

/-- local_mark_delete_meta (src/src/cloudsync.c:1848): sentinel upsert with
initial col_version 2 (tombstone), or col_version + 1 on conflict. -/
def local_mark_delete_meta (m : List MetaRow) (pk : Pk) (dv sq : Int) : List MetaRow :=
  local_mark_insert_or_update_meta_impl m pk CLOUDSYNC_TOMBSTONE_VALUE 2 dv sq

/-- Model of meta_row_drop_stmt and meta_merge_delete_drop (identical SQL,
src/src/cloudsync.c:724 and 768): `DELETE FROM T_cloudsync WHERE pk = ? AND
col_name != sentinel`. -/
def local_drop_meta (m : List MetaRow) (pk : Pk) : List MetaRow :=
  m.filter fun r => decide ¬(r.pk = pk ∧ r.col_name ≠ CLOUDSYNC_TOMBSTONE_VALUE)

/-- Model of meta_update_move_stmt (src/src/cloudsync.c:734):
`UPDATE OR REPLACE T_cloudsync SET pk = new, db_version = ?, col_version = 1,
seq = cloudsync_seq(), site_id = 0 WHERE pk = old AND col_name != sentinel`.
OR REPLACE removes any pre-existing row whose (pk, col_name) key collides
with an updated row; cloudsync_seq() bumps the per-transaction counter once
per updated row, the first updated row receiving the current counter. -/
def moveRows (newpk : Pk) (dv : Int) : List MetaRow → Int → List MetaRow
  | [], _ => []
  | r :: rest, sq =>
    { r with pk := newpk, db_version := dv, col_version := 1, seq := sq, site_id := 0 } ::
      moveRows newpk dv rest (sq + 1)

/-- Model of the whole meta_update_move_stmt execution: moveRows gives the
updated rows, kept the surviving ones (OR REPLACE semantics), and the clock
advances by one seq per updated row. -/
def local_update_move_meta (m : List MetaRow) (newpk oldpk : Pk) (dv : Int)
    (c : ClockState) : List MetaRow × ClockState :=
  let movedSrc := m.filter fun r => decide (r.pk = oldpk ∧ r.col_name ≠ CLOUDSYNC_TOMBSTONE_VALUE)
  let moved := moveRows newpk dv movedSrc c.seq
  let kept := m.filter fun r => decide
    (¬(r.pk = oldpk ∧ r.col_name ≠ CLOUDSYNC_TOMBSTONE_VALUE) ∧
     ¬(r.pk = newpk ∧ r.col_name ≠ CLOUDSYNC_TOMBSTONE_VALUE ∧
        movedSrc.any (fun q => decide (q.col_name = r.col_name))))
  (kept ++ moved, { c with seq := c.seq + movedSrc.length })

/-- Model of meta_local_cl_stmt (src/src/cloudsync.c:743) through
merge_get_local_cl (src/src/cloudsync.c:1030-1049):
`SELECT COALESCE((SELECT col_version FROM T_cloudsync WHERE pk=? AND
col_name=sentinel), (SELECT 1 FROM T_cloudsync WHERE pk=?))`, with
SQLITE_DONE (no row at all) mapped to 0. -/
def merge_get_local_cl (m : List MetaRow) (pk : Pk) : Int :=
  match metaFind m pk CLOUDSYNC_TOMBSTONE_VALUE with
  | some r => r.col_version
  | none => if m.any (fun r => decide (r.pk = pk)) then 1 else 0

/-! ## Merge engine (src/src/cloudsync.c:1030-1495) -/

/-- Error outcomes of the merge engine that the claims distinguish:
SQLITE_MISUSE (merge_insert_col cannot find the per-column precompiled
statement) and generic SQL errors. -/
inductive MergeErr where
  | misuse
  | generic
  deriving DecidableEq, Repr

/-- Lookup of a user-table row by primary key. -/
def userFind (u : List UserRow) (pk : Pk) : Option UserRow :=
  u.find? fun r => decide (r.pk = pk)

/-- Model of getset_siteid_stmt: `INSERT INTO cloudsync_site_id (site_id)
VALUES (?) ON CONFLICT DO UPDATE SET site_id = site_id RETURNING rowid`.
Returns the ordinal of the site blob, registering it when new (ordinal 0 is
the local site, so remote ordinals start at 1). -/
def getset_siteid (sites : List SiteBlob) (blob : SiteBlob) : Nat × List SiteBlob :=
  match sites.findIdx? (fun b => decide (b = blob)) with
  | some i => (i + 1, sites)
  | none => (sites.length + 1, sites ++ [blob])

/-- Model of merge_set_winner_clock (src/src/cloudsync.c:1072-1114): resolve
the site blob to an ordinal, then `INSERT OR REPLACE INTO T_cloudsync (pk,
col_name, col_version, db_version, seq, site_id) VALUES (?, ?, ?,
cloudsync_db_version_next(?), ?, ?)` (meta_winner_clock_stmt,
src/src/cloudsync.c:752).  A NULL colname stands for the sentinel.  The
RETURNING rowid output is not used by any claim and is omitted. -/
def merge_set_winner_clock (s : DBState) (pk : Pk) (colname : Option ColName)
    (cv dv : Int) (site : SiteBlob) (sq : Int) : DBState :=
  let ordSites := getset_siteid s.sites site
  let vClock := db_version_next s.clock dv
  let name := colname.getD CLOUDSYNC_TOMBSTONE_VALUE
  let newRow : MetaRow := ⟨pk, name, cv, vClock.1, sq, ordSites.1⟩
  { s with
    meta := metaUpsert s.meta pk name newRow (fun _ => newRow),
    clock := vClock.2,
    sites := ordSites.2 }

/-- Model of merge_zeroclock_on_resurrect (src/src/cloudsync.c:1216-1235):
`UPDATE T_cloudsync SET col_version = 0, db_version =
cloudsync_db_version_next(?) WHERE pk = ? AND col_name != sentinel`
(meta_zero_clock_stmt, src/src/cloudsync.c:772).  cloudsync_db_version_next
is evaluated once per updated row; after the first evaluation the pending
version already equals the result, so every row receives the same value and
the clock advances once.  When no row matches, the function is never
evaluated and the clock is untouched. -/
def merge_zeroclock_on_resurrect (s : DBState) (dv : Int) (pk : Pk) : DBState :=
  if s.meta.any (fun r => decide (r.pk = pk ∧ r.col_name ≠ CLOUDSYNC_TOMBSTONE_VALUE)) then
    let vClock := db_version_next s.clock dv
    { s with
      meta := s.meta.map fun r =>
        if r.pk = pk ∧ r.col_name ≠ CLOUDSYNC_TOMBSTONE_VALUE then
          { r with col_version := 0, db_version := vClock.1 }
        else r,
      clock := vClock.2 }
  else s

/-- Model of merge_sentinel_only_insert (src/src/cloudsync.c:1324-1354):
capture-suppressed `INSERT OR IGNORE` of the PK tuple into the user table
(real_merge_sentinel_stmt: only the PK columns are supplied, every non-PK
column takes its default, modelled as NULL), then zero-clock the column
rows, then set_winner_clock on the sentinel with the supplied cl. -/
def merge_sentinel_only_insert (cfg : TableCfg) (s : DBState) (pk : Pk)
    (cl dv : Int) (site : SiteBlob) (sq : Int) : DBState :=
  let user := match userFind s.user pk with
    | some _ => s.user
    | none => s.user ++ [⟨pk, List.replicate cfg.cols.length SQLiteValue.null⟩]
  let s1 := merge_zeroclock_on_resurrect { s with user := user } dv pk
  merge_set_winner_clock s1 pk none cl dv site sq

/-- Model of merge_delete (src/src/cloudsync.c:1166-1214):
capture-suppressed delete of the real row by PK, set_winner_clock with the
supplied column name and version, then drop all non-sentinel meta rows of
the PK. -/
def merge_delete (s : DBState) (pk : Pk) (colname : Option ColName)
    (cv dv : Int) (site : SiteBlob) (sq : Int) : DBState :=
  let s1 := { s with user := s.user.filter fun r => decide (r.pk ≠ pk) }
  let s2 := merge_set_winner_clock s1 pk colname cv dv site sq
  { s2 with meta := local_drop_meta s2.meta pk }

/-- Model of merge_get_col_version (src/src/cloudsync.c:1050-1070) combined
into the caller: the col_version of the meta row (pk, col), if any. -/
def merge_get_col_version (m : List MetaRow) (pk : Pk) (col : ColName) : Option Int :=
  (metaFind m pk col).map fun r => r.col_version

/-- The local value merge_did_cid_win compares against on a version tie: the
column at cid index i of the user-table row, or the C NULL pointer (none)
when stepping the per-column SELECT returns SQLITE_DONE because the row is
missing. -/
def local_column_value (u : List UserRow) (pk : Pk) (i : Nat) : Option SQLiteValue :=
  match userFind u pk with
  | none => none
  | some row => some (row.vals.getD i SQLiteValue.null)

/-- Model of merge_did_cid_win (src/src/cloudsync.c:1238-1322).  The
merge_equal_values configuration flag (tie-breaking by site_id) is an
internal flag that the public surface never sets; the model fixes it to its
default false, so on a version tie the foreign change wins iff the typed
value comparison is strictly positive.  If the per-column value statement is
missing (unknown column) the C function returns an error. -/
def merge_did_cid_win (cfg : TableCfg) (s : DBState) (pk : Pk)
    (insert_value : SQLiteValue) (col_name : ColName) (col_version : Int) :
    Except MergeErr Bool :=
  match merge_get_col_version s.meta pk col_name with
  | none => .ok true
  | some local_version =>
    if col_version > local_version then .ok true
    else if col_version < local_version then .ok false
    else
      match cfg.cols.findIdx? (fun c => decide (c = col_name)) with
      | none => .error .generic
      | some i =>
        .ok (decide (0 < dbutils_value_compare (some insert_value)
          (local_column_value s.user pk i)))

/-- Model of merge_insert_col (src/src/cloudsync.c:1116-1164): look up the
per-column merge statement (error SQLITE_MISUSE when the column is not in
the registry, which is how a sentinel-named change fails under GOS), then a
capture-suppressed `INSERT INTO T (pks, col) VALUES (...) ON CONFLICT DO
UPDATE SET col = ?` (under GOS the abort trigger is disabled around the
statement, so the upsert semantics are the same), then set_winner_clock on
the column row. -/
def merge_insert_col (cfg : TableCfg) (s : DBState) (pk : Pk) (col_name : ColName)
    (col_value : SQLiteValue) (cv dv : Int) (site : SiteBlob) (sq : Int) :
    Except MergeErr DBState :=
  match cfg.cols.findIdx? (fun c => decide (c = col_name)) with
  | none => .error .misuse
  | some i =>
    let user := match userFind s.user pk with
      | some _ => s.user.map fun r => if r.pk = pk then { r with vals := r.vals.set i col_value } else r
      | none => s.user ++ [⟨pk, (List.replicate cfg.cols.length SQLiteValue.null).set i col_value⟩]
    .ok (merge_set_winner_clock { s with user := user } pk (some col_name) cv dv site sq)

/-- One row of the cloudsync_changes stream as received by
cloudsync_merge_insert (argv[1..8]; the table name argv[0] selects the
registry entry and is implicit in the single-table model).  A NULL column
name denotes the sentinel. -/
structure Change where
  pk : Pk
  col_name : Option ColName
  col_value : SQLiteValue
  col_version : Int
  db_version : Int
  site_id : SiteBlob
  cl : Int
  seq : Int
  deriving DecidableEq, Repr

/-- The effective column name of a change: a NULL argv[2] is replaced by the
tombstone sentinel (src/src/cloudsync.c:1409). -/
def changeName (ch : Change) : ColName := ch.col_name.getD CLOUDSYNC_TOMBSTONE_VALUE

/-- Wellformedness of a change as produced by the cloudsync_changes view:
for a sentinel row the view reports cl = COALESCE(sibling sentinel
col_version, 1), and the sibling of a sentinel row is the row itself, so
col_version = cl. -/
def WellFormedChange (ch : Change) : Prop :=
  changeName ch = CLOUDSYNC_TOMBSTONE_VALUE → ch.col_version = ch.cl

/-- Model of cloudsync_merge_insert_gos (src/src/cloudsync.c:1356-1367):
under GOS every change is applied through merge_insert_col only. -/
def cloudsync_merge_insert_gos (cfg : TableCfg) (s : DBState) (ch : Change) :
    Except MergeErr DBState :=
  merge_insert_col cfg s ch.pk (changeName ch) ch.col_value ch.col_version
    ch.db_version ch.site_id ch.seq

/-- The tail of the CLS column-write branch of cloudsync_merge_insert
(src/src/cloudsync.c:1479-1494): decide the winner with merge_did_cid_win
and, when the foreign change wins (resurrection, locally missing row, or
winning comparison), apply merge_insert_col. -/
def merge_column_phase (cfg : TableCfg) (s1 : DBState) (ch : Change)
    (needs_resurrect row_exists_locally : Bool) : Except MergeErr DBState :=
  match merge_did_cid_win cfg s1 ch.pk ch.col_value (changeName ch) ch.col_version with
  | .error e => .error e
  | .ok flag =>
    if needs_resurrect || !row_exists_locally || flag then
      merge_insert_col cfg s1 ch.pk (changeName ch) ch.col_value ch.col_version
        ch.db_version ch.site_id ch.seq
    else .ok s1

/-- Model of cloudsync_merge_insert (src/src/cloudsync.c:1369-1495), the
merge-engine entry point reached by an INSERT into the cloudsync_changes
virtual table.  C computes parities with the truncating %, which agrees
with Lean on the evenness test and, inside the resurrect test, on every
cl > local_cl ≥ 0 that occurs. -/
def cloudsync_merge_insert (cfg : TableCfg) (s : DBState) (ch : Change) :
    Except MergeErr DBState :=
  if cfg.algo = TableAlgo.gos then cloudsync_merge_insert_gos cfg s ch
  else
    let insert_name := changeName ch
    let local_cl := merge_get_local_cl s.meta ch.pk
    if ch.cl < local_cl then .ok s
    else if ch.cl % 2 = 0 then
      if local_cl = ch.cl then .ok s
      else .ok (merge_delete s ch.pk (some insert_name) ch.col_version
        ch.db_version ch.site_id ch.seq)
    else if insert_name = CLOUDSYNC_TOMBSTONE_VALUE then
      if local_cl = ch.cl then .ok s
      else .ok (merge_sentinel_only_insert cfg s ch.pk ch.col_version
        ch.db_version ch.site_id ch.seq)
    else
      let needs_resurrect : Bool := decide (ch.cl > local_cl ∧ ch.cl % 2 = 1)
      let row_exists_locally : Bool := decide (local_cl ≠ 0)
      let s1 :=
        if needs_resurrect && (row_exists_locally || (!row_exists_locally && decide (ch.cl > 1))) then
          merge_sentinel_only_insert cfg s ch.pk ch.cl ch.db_version ch.site_id ch.seq
        else s
      merge_column_phase cfg s1 ch needs_resurrect row_exists_locally

/-! ## Local change capture (src/src/cloudsync.c:2481-2689) -/

/-- Model of cloudsync_insert (src/src/cloudsync.c:2481-2546), the function
the AFTER INSERT trigger calls: compute the next db_version; if the table
has no non-PK columns insert a sentinel; otherwise, if any meta row for the
PK exists (the row was previously deleted), bump the sentinel to the next
odd value; finally upsert one column row per non-PK column.  Note that on a
fresh PK of a table with non-PK columns no sentinel row is written. -/
def cloudsync_insert (cfg : TableCfg) (s : DBState) (pk : Pk) : DBState :=
  let dvClock := db_version_next s.clock CLOUDSYNC_VALUE_NOTSET
  let dv := dvClock.1
  let s0 := { s with clock := dvClock.2 }
  let pk_exists := s0.meta.any fun r => decide (r.pk = pk)
  let s1 :=
    if cfg.cols.length = 0 then
      let sqClock := bump_seq s0.clock
      { s0 with meta := local_mark_insert_sentinel_meta s0.meta pk dv sqClock.1,
                clock := sqClock.2 }
    else if pk_exists then
      let sqClock := bump_seq s0.clock
      { s0 with meta := local_update_sentinel s0.meta pk dv sqClock.1,
                clock := sqClock.2 }
    else s0
  cfg.cols.foldl
    (fun acc col =>
      let sqClock := bump_seq acc.clock
      { acc with meta := local_mark_insert_or_update_meta acc.meta pk col dv sqClock.1,
                 clock := sqClock.2 })
    s1

/-- Model of cloudsync_update (src/src/cloudsync.c:2548-2655), the function
the AFTER UPDATE trigger calls with NEW and OLD primary keys and the NEW/OLD
value of every non-PK column.  The C code detects a PK change by comparing
the NEW and OLD PK values with dbutils_value_compare; the PK encoding is
deterministic, so this is equality of the encoded keys. -/
def cloudsync_update (cfg : TableCfg) (s : DBState) (newpk oldpk : Pk)
    (newvals oldvals : List SQLiteValue) : DBState :=
  let dvClock := db_version_next s.clock CLOUDSYNC_VALUE_NOTSET
  let dv := dvClock.1
  let s0 := { s with clock := dvClock.2 }
  let prikey_changed := newpk ≠ oldpk
  let s1 :=
    if prikey_changed then
      let sqClock := bump_seq s0.clock
      let m1 := local_mark_delete_meta s0.meta oldpk dv sqClock.1
      let moved := local_update_move_meta m1 newpk oldpk dv sqClock.2
      let sqClock2 := bump_seq moved.2
      let m2 := local_mark_insert_sentinel_meta moved.1 newpk dv sqClock2.1
      { s0 with meta := m2, clock := sqClock2.2 }
    else s0
  (cfg.cols.zip (newvals.zip oldvals)).foldl
    (fun acc p =>
      if dbutils_value_compare (some p.2.1) (some p.2.2) ≠ 0 then
        let sqClock := bump_seq acc.clock
        { acc with meta := local_mark_insert_or_update_meta acc.meta newpk p.1 dv sqClock.1,
                   clock := sqClock.2 }
      else acc)
    s1

/-- Model of cloudsync_delete (src/src/cloudsync.c:2657-2689), the function
the AFTER DELETE trigger calls: write the delete sentinel, then drop every
non-sentinel meta row of the PK. -/
def cloudsync_delete (s : DBState) (pk : Pk) : DBState :=
  let dvClock := db_version_next s.clock CLOUDSYNC_VALUE_NOTSET
  let sqClock := bump_seq dvClock.2
  let m1 := local_mark_delete_meta s.meta pk dvClock.1 sqClock.1
  { s with meta := local_drop_meta m1 pk, clock := sqClock.2 }

/-! ## Reachable states -/

/-- Replacement of the user-table row with key oldpk by (newpk, newvals),
the effect of the SQL UPDATE that fires the AFTER UPDATE trigger. -/
def userUpdate (u : List UserRow) (oldpk newpk : Pk) (newvals : List SQLiteValue) :
    List UserRow :=
  u.map fun r => if r.pk = oldpk then ⟨newpk, newvals⟩ else r

/-- The state of a freshly initialised replica: empty user table, empty meta
table, db_version 0 and no pending transaction, no registered remote sites. -/
def initialState : DBState :=
  ⟨[], [], ⟨0, CLOUDSYNC_VALUE_NOTSET, 0⟩, []⟩

/-- One step of the system: a local write captured by the triggers (the
trigger fires after the user-table change succeeds, so an insert requires a
fresh PK and an update cannot move onto an occupied PK; under GOS the
UPDATE and DELETE triggers are replaced by RAISE ABORT so only inserts and
merges occur), or a successful merge of a wellformed foreign change. -/
inductive Step (cfg : TableCfg) : DBState → DBState → Prop where
  | local_insert (s : DBState) (pk : Pk) (vals : List SQLiteValue)
      (hfresh : userFind s.user pk = none)
      (hlen : vals.length = cfg.cols.length) :
      Step cfg s (cloudsync_insert cfg { s with user := s.user ++ [⟨pk, vals⟩] } pk)
  | local_update (s : DBState) (oldpk newpk : Pk) (oldvals newvals : List SQLiteValue)
      (halgo : cfg.algo = TableAlgo.cls)
      (hold : userFind s.user oldpk = some ⟨oldpk, oldvals⟩)
      (htarget : newpk = oldpk ∨ userFind s.user newpk = none)
      (hlen : newvals.length = cfg.cols.length) :
      Step cfg s (cloudsync_update cfg { s with user := userUpdate s.user oldpk newpk newvals }
        newpk oldpk newvals oldvals)
  | local_delete (s : DBState) (pk : Pk) (row : UserRow)
      (halgo : cfg.algo = TableAlgo.cls)
      (hold : userFind s.user pk = some row) :
      Step cfg s (cloudsync_delete { s with user := s.user.filter fun r => decide (r.pk ≠ pk) } pk)
  | merge (s s2 : DBState) (ch : Change)
      (hwf : WellFormedChange ch)
      (hok : cloudsync_merge_insert cfg s ch = .ok s2) :
      Step cfg s s2

/-- Reachability through the local capture operations and the merge engine. -/
def Reachable (cfg : TableCfg) (s : DBState) : Prop :=
  Relation.ReflTransGen (Step cfg) initialState s

/-! ## Meta-table invariants -/

/-- The PK has at least one column (non-sentinel) row in the meta table. -/
def ColRowExists (m : List MetaRow) (pk : Pk) : Prop :=
  ∃ r ∈ m, r.pk = pk ∧ r.col_name ≠ CLOUDSYNC_TOMBSTONE_VALUE

/-- The claim-facing part of the invariant: every sentinel row whose PK also
has a column row carries an odd col_version. -/
def SentinelsOddForColRows (m : List MetaRow) : Prop :=
  ∀ r ∈ m, r.col_name = CLOUDSYNC_TOMBSTONE_VALUE → ColRowExists m r.pk →
    r.col_version % 2 = 1

/-- The invariant stated by claim C1 (and spec §3): every PK with a column
row also has a sentinel row, and that sentinel is odd. -/
def SpecC1Invariant (m : List MetaRow) : Prop :=
  ∀ pk, ColRowExists m pk →
    ∃ r ∈ m, r.pk = pk ∧ r.col_name = CLOUDSYNC_TOMBSTONE_VALUE ∧ r.col_version % 2 = 1

/-- Auxiliary invariant: a PK present in the user table never carries an
even (tombstoned) sentinel. -/
def UserSentinelsOdd (s : DBState) : Prop :=
  ∀ u ∈ s.user, ∀ r ∈ s.meta, r.pk = u.pk →
    r.col_name = CLOUDSYNC_TOMBSTONE_VALUE → r.col_version % 2 = 1

/-- Auxiliary invariant: sentinel col_versions are at least 1 (they start at
1 or 2 and only ever grow). -/
def SentinelsGeOne (m : List MetaRow) : Prop :=
  ∀ r ∈ m, r.col_name = CLOUDSYNC_TOMBSTONE_VALUE → 1 ≤ r.col_version

/-- Auxiliary invariant for GOS tables: no delete is ever captured or
merged, so every sentinel (only pure-PK tables produce them) is odd. -/
def AllSentinelsOdd (m : List MetaRow) : Prop :=
  ∀ r ∈ m, r.col_name = CLOUDSYNC_TOMBSTONE_VALUE → r.col_version % 2 = 1

/-- Uniqueness of the meta-table primary key (pk, col_name), guaranteed by
the schema `PRIMARY KEY (pk, col_name)`. -/
def MetaKeysNodup (m : List MetaRow) : Prop :=
  m.Pairwise fun a b => ¬(a.pk = b.pk ∧ a.col_name = b.col_name)

/-- The inductive invariant: key uniqueness, the claim-facing sentinel
parity property, and the auxiliary facts the induction needs. -/
def Inv (cfg : TableCfg) (s : DBState) : Prop :=
  MetaKeysNodup s.meta ∧ SentinelsGeOne s.meta ∧ SentinelsOddForColRows s.meta ∧
    UserSentinelsOdd s ∧ (cfg.algo = TableAlgo.gos → AllSentinelsOdd s.meta)

/-- Every sentinel row of the PK satisfies P on its col_version. -/
def SentinelAt (m : List MetaRow) (pk : Pk) (P : Int → Prop) : Prop :=
  ∀ r ∈ m, r.pk = pk → r.col_name = CLOUDSYNC_TOMBSTONE_VALUE → P r.col_version

/-- The sentinel rows of the left list all occur in the right list: the
shape of every meta operation that does not touch sentinels. -/
def SentinelSubset (m2 m : List MetaRow) : Prop :=
  ∀ r ∈ m2, r.col_name = CLOUDSYNC_TOMBSTONE_VALUE → r ∈ m

/-! ## Payload codec (src/src/cloudsync.c:1940-2258) -/

/-- The payload signature 'CLSY' as a 32-bit big-endian integer. -/
def CLOUDSYNC_PAYLOAD_SIGNATURE : Int := 0x434C5359

/-- Size in bytes of the fixed wire header (cloudsync_network_header). -/
def HEADER_BYTE_SIZE : Nat := 32

/-- The decoded fields of the 32-byte payload header.  The byte-level
big-endian serialisation (htonl/htons/htonll), the 3-byte library version
and the 6 reserved padding bytes are not modelled: no claim concerns them. -/
structure NetworkHeader where
  signature : Int
  version : Int
  expanded_size : Int
  ncols : Nat
  nrows : Nat
  schema_hash : Int
  deriving DecidableEq, Repr

/-- The aggregate state of the payload_encode aggregate
(cloudsync_network_payload): the number of step invocations, the column
count captured on the first step, and the accumulated row encodings.  The
byte serialisation of a row (pk_encode, a separate source file) is
abstracted: the buffer is kept as the list of the rows written into it. -/
structure EncodePayloadState where
  nrows : Nat
  ncols : Nat
  rows : List (List SQLiteValue)
  deriving DecidableEq, Repr

/-- The zero-initialised aggregate context sqlite3_aggregate_context
returns on first use. -/
def encodeInit : EncodePayloadState := ⟨0, 0, []⟩

/-- Model of cloudsync_payload_encode_step (src/src/cloudsync.c:1958-1982):
on the first invocation record the column count, then append the row
encoding and bump the row counter. -/
def cloudsync_payload_encode_step (st : EncodePayloadState)
    (argv : List SQLiteValue) : EncodePayloadState :=
  let st1 := if st.nrows = 0 then { st with ncols := argv.length } else st
  { st1 with rows := st1.rows ++ [argv], nrows := st1.nrows + 1 }

/-- Model of cloudsync_payload_encode_final (src/src/cloudsync.c:1984-2033):
with zero aggregated rows the function returns SQL NULL (modelled none);
otherwise it emits a header-plus-body blob.  LZ4 compression only rewrites
the body bytes (and sets expanded_size when it shrinks them); the model
keeps the uncompressed form, which no claim distinguishes. -/
def cloudsync_payload_encode_final (schema_hash : Int) (st : EncodePayloadState) :
    Option (NetworkHeader × List (List SQLiteValue)) :=
  if st.nrows = 0 then none
  else some (⟨CLOUDSYNC_PAYLOAD_SIGNATURE, 1, 0, st.ncols, st.nrows, schema_hash⟩, st.rows)

/-- One decoded row of a received payload: the target table name and the
change tuple. -/
structure PayloadRow where
  tbl : String
  data : Change
  deriving DecidableEq, Repr

/-- A received payload after header decoding, body decompression and
row decoding (the byte-level row codec lives in pk.c, a separate source
file, and is abstracted here). -/
structure Payload where
  header : NetworkHeader
  rows : List PayloadRow
  deriving DecidableEq, Repr

/-- Error codes surfaced by payload apply and decode:
SQLITE_MISMATCH for an unknown schema hash, SQLITE_MISUSE for malformed
input or a failed final row. -/
inductive ApplyErr where
  | mismatch
  | misuse
  deriving DecidableEq, Repr

/-- Model of the row loop of cloudsync_payload_apply
(src/src/cloudsync.c:2158-2188) over an abstract database DB.
`approve` is the optional payload-apply callback (CLOUDSYNC_PAYLOAD_APPLY
_WILL_APPLY, e.g. row-level security); `step` is the INSERT into the
cloudsync_changes virtual table, returning none when the insert fails.  A
failed row is logged and the loop continues; the boolean component tracks
whether the most recent executed step succeeded (the rc variable), which
decides the overall result after the loop. -/
def payload_apply_rows {DB : Type} (step : PayloadRow → DB → Option DB)
    (approve : PayloadRow → DB → Bool) :
    List PayloadRow → DB × Bool → DB × Bool
  | [], st => st
  | r :: rest, (db, rcOk) =>
    if approve r db then
      match step r db with
      | some db2 => payload_apply_rows step approve rest (db2, true)
      | none => payload_apply_rows step approve rest (db, false)
    else payload_apply_rows step approve rest (db, rcOk)

/-- Model of cloudsync_payload_apply (src/src/cloudsync.c:2097-2225): the
schema-hash gate (reject when the hash differs from the local hash and is
absent from the cloudsync_schema_versions registry, modelled by the list
known_hashes, per dbutils_check_schema_hash src/src/dbutils.c:1084-1099),
then the signature/ncols sanity check, then the row loop.  The overall
result is an error when the last executed row step failed.  LZ4
decompression and the sync-cursor settings update are not modelled: no
claim concerns them. -/
def cloudsync_payload_apply {DB : Type} (step : PayloadRow → DB → Option DB)
    (approve : PayloadRow → DB → Bool) (local_hash : Int) (known_hashes : List Int)
    (p : Payload) (db : DB) : DB × Option ApplyErr :=
  if p.header.schema_hash ≠ local_hash ∧ ¬ known_hashes.contains p.header.schema_hash then
    (db, some ApplyErr.mismatch)
  else if p.header.signature ≠ CLOUDSYNC_PAYLOAD_SIGNATURE ∨ p.header.ncols = 0 then
    (db, some ApplyErr.misuse)
  else
    let res := payload_apply_rows step approve p.rows (db, true)
    if res.2 then (res.1, none) else (res.1, some ApplyErr.misuse)

/-- The argument of cloudsync_payload_decode as it is inspected by the
function: either a value whose sqlite3_value_type is not SQLITE_BLOB, or a
blob with its byte length (sqlite3_value_bytes) and, when long enough to
carry a header, its decoded payload. -/
inductive SqlValueArg where
  | nonblob
  | blobArg (len : Nat) (content : Payload)
  deriving DecidableEq, Repr

/-- Model of cloudsync_payload_decode (src/src/cloudsync.c:2227-2251):
reject non-BLOB values and blobs shorter than the 32-byte header with
SQLITE_MISUSE before touching any table; otherwise hand the payload to
cloudsync_payload_apply. -/
def cloudsync_payload_decode {DB : Type} (step : PayloadRow → DB → Option DB)
    (approve : PayloadRow → DB → Bool) (local_hash : Int) (known_hashes : List Int)
    (arg : SqlValueArg) (db : DB) : DB × Option ApplyErr :=
  match arg with
  | .nonblob => (db, some ApplyErr.misuse)
  | .blobArg len content =>
    if len < HEADER_BYTE_SIZE then (db, some ApplyErr.misuse)
    else cloudsync_payload_apply step approve local_hash known_hashes content db

/-! ## Decidability instances for concrete evaluation -/

instance (m : List MetaRow) (pk : Pk) : Decidable (ColRowExists m pk) := by
  unfold ColRowExists
  infer_instance

instance (m : List MetaRow) : Decidable (SentinelsOddForColRows m) := by
  unfold SentinelsOddForColRows
  infer_instance

instance (ch : Change) : Decidable (WellFormedChange ch) := by
  unfold WellFormedChange
  infer_instance

instance (cfg : TableCfg) : Decidable (CfgWF cfg) := by
  unfold CfgWF
  infer_instance

/-! ## Concrete instances used by counterexamples and witnesses -/

/-- A CLS table with primary key columns and one non-PK column named age. -/
def c1_cfg : TableCfg := ⟨["age"], TableAlgo.cls⟩

/-- The state reached from the initial state by one local INSERT of a fresh
row with PK 7: the user-table insert followed by the AFTER INSERT trigger
call of cloudsync_insert. -/
def c1_state : DBState :=
  cloudsync_insert c1_cfg { initialState with user := [⟨7, [SQLiteValue.integer 20]⟩] } 7

/-- C4 scenario: payload row that the merge engine accepts. -/
def c4_row_ok : PayloadRow := ⟨"tbl", ⟨1, some "age", SQLiteValue.integer 10, 1, 1, [6], 1, 0⟩⟩

/-- C4 scenario: payload row of the same db_version group whose
cloudsync_changes insert fails. -/
def c4_row_bad : PayloadRow := ⟨"tbl", ⟨2, some "age", SQLiteValue.integer 11, 1, 1, [6], 1, 1⟩⟩

/-- C4 scenario: a second row accepted after the failure. -/
def c4_row_ok2 : PayloadRow := ⟨"tbl", ⟨3, some "age", SQLiteValue.integer 12, 1, 1, [6], 1, 2⟩⟩

/-- C4 scenario: the abstract database is the list of applied PKs; the step
fails exactly on the row with pk 2 (e.g. denied by row-level security). -/
def c4_step : PayloadRow → List Nat → Option (List Nat) :=
  fun r db => if r.data.pk = 2 then none else some (db ++ [r.data.pk])

/-- C4 scenario: the payload-apply callback approves every row. -/
def c4_approve : PayloadRow → List Nat → Bool := fun _ _ => true

/-- C4 scenario: a syntactically valid header carrying the local schema
hash 42 and two rows in the single db_version group 1. -/
def c4_payload : Payload :=
  ⟨⟨CLOUDSYNC_PAYLOAD_SIGNATURE, 1, 0, 9, 2, 42⟩, [c4_row_ok, c4_row_bad]⟩

/-- C5 scenario (spec S5): the tombstone state produced by merging a delete
with cl 2 for the never-seen PK 3 into the initial state. -/
def c5_delete_change : Change := ⟨3, none, SQLiteValue.null, 2, 5, [9], 2, 0⟩

/-- C5 scenario: the late insert with cl 1 for the same PK. -/
def c5_stale_change : Change := ⟨3, some "age", SQLiteValue.integer 1, 1, 1, [8], 1, 0⟩

/-- C5 scenario: the state after the delete merge. -/
def c5_mid : DBState :=
  merge_delete initialState 3 (some CLOUDSYNC_TOMBSTONE_VALUE) 2 5 [9] 0

/-- C6 scenario: a column write with cl 3 arriving at a replica whose local
causal length for PK 4 is 0. -/
def c6_change : Change := ⟨4, some "age", SQLiteValue.integer 7, 1, 9, [5], 3, 0⟩

/-- C3 scenario: a GOS table with one non-PK column. -/
def c3_cfg : TableCfg := ⟨["age"], TableAlgo.gos⟩

/-- C3 scenario: a delete change (even cl, sentinel column name). -/
def c3_delete_change : Change := ⟨1, none, SQLiteValue.null, 2, 3, [4], 2, 0⟩

/-- C7 scenario: a step that records applied PKs and never fails. -/
def c7_step : PayloadRow → List Nat → Option (List Nat) :=
  fun r db => some (db ++ [r.data.pk])

/-- C7 scenario: the callback approves every row. -/
def c7_approve : PayloadRow → List Nat → Bool := fun _ _ => true

/-- C7 scenario: a valid one-row payload whose header carries schema hash 42. -/
def c7_payload : Payload :=
  ⟨⟨CLOUDSYNC_PAYLOAD_SIGNATURE, 1, 0, 9, 1, 42⟩, [⟨"tbl", ⟨1, some "age", SQLiteValue.integer 10, 1, 1, [6], 1, 0⟩⟩]⟩

deriving instance DecidableEq for Except

/-! ## Theorems -/

/-- C2 counterexample: the specification orders the storage classes
NULL < INTEGER < FLOAT < TEXT < BLOB, so on a col_version tie a foreign
INTEGER against a local FLOAT should compare negative and lose; the code
returns `r_type - l_type` = SQLITE_FLOAT - SQLITE_INTEGER = 1 > 0, so the
foreign INTEGER wins.  Likewise a foreign TEXT against a local BLOB should
compare negative per the spec, yet the code returns 1 > 0. -/
theorem value_compare_spec_order_false :
    spec_storage_rank (SQLiteValue.integer 0) < spec_storage_rank (SQLiteValue.float 0) ∧
    0 < dbutils_value_compare (some (SQLiteValue.integer 0)) (some (SQLiteValue.float 0)) ∧
    spec_storage_rank (SQLiteValue.text [97]) < spec_storage_rank (SQLiteValue.blob [97]) ∧
    0 < dbutils_value_compare (some (SQLiteValue.text [97])) (some (SQLiteValue.blob [97])) := by
  refine ⟨by decide, ?_, by decide, ?_⟩ <;> decide

/-- C2 (amended): on a col_version tie the typed comparison orders values of
different storage classes by descending SQLite type code — the code returns
`r_type - l_type`, giving NULL < BLOB < TEXT < FLOAT < INTEGER (ranks 1-5 in
code_storage_rank) — while within a storage class the natural ordering
applies, BLOBs compare by memcmp of the common prefix and then by length,
and the foreign change wins the tie iff the comparison of (foreign value,
local value) is strictly positive (site_id tie-breaking off, its default). -/
theorem value_compare_descending_type_code :
    (∀ v w : SQLiteValue, sqlite_value_type v ≠ sqlite_value_type w →
      dbutils_value_compare (some v) (some w) = sqlite_value_type w - sqlite_value_type v) ∧
    (∀ v w : SQLiteValue, sqlite_value_type v ≠ sqlite_value_type w →
      (0 < dbutils_value_compare (some v) (some w) ↔ code_storage_rank w < code_storage_rank v)) ∧
    (∀ a b : Int, 0 < dbutils_value_compare (some (SQLiteValue.integer a))
      (some (SQLiteValue.integer b)) ↔ b < a) ∧
    (∀ a b : ℚ, 0 < dbutils_value_compare (some (SQLiteValue.float a))
      (some (SQLiteValue.float b)) ↔ b < a) ∧
    (∀ xs ys : List Nat, dbutils_value_compare (some (SQLiteValue.text xs))
      (some (SQLiteValue.text ys)) = bytesCompare xs ys) ∧
    (∀ xs ys : List Nat,
      (bytesCompare (xs.take (min xs.length ys.length)) (ys.take (min xs.length ys.length)) ≠ 0 →
        dbutils_value_compare (some (SQLiteValue.blob xs)) (some (SQLiteValue.blob ys)) =
          bytesCompare (xs.take (min xs.length ys.length)) (ys.take (min xs.length ys.length))) ∧
      (bytesCompare (xs.take (min xs.length ys.length)) (ys.take (min xs.length ys.length)) = 0 →
        dbutils_value_compare (some (SQLiteValue.blob xs)) (some (SQLiteValue.blob ys)) =
          (xs.length : Int) - (ys.length : Int))) ∧
    (∀ (cfg : TableCfg) (s : DBState) (pk : Pk) (v : SQLiteValue) (col : ColName)
      (cv : Int) (r : MetaRow) (i : Nat),
      metaFind s.meta pk col = some r → r.col_version = cv →
      cfg.cols.findIdx? (fun c => decide (c = col)) = some i →
      merge_did_cid_win cfg s pk v col cv =
        .ok (decide (0 < dbutils_value_compare (some v) (local_column_value s.user pk i)))) := by
  refine ⟨?_, ?_, ?_, ?_, ?_, ?_, ?_⟩
  · intro v w h
    simp only [dbutils_value_compare]
    rw [if_pos h]
  · intro v w h
    cases v <;> cases w <;> simp_all [dbutils_value_compare, sqlite_value_type,
      code_storage_rank] <;> omega
  · intro a b
    simp only [dbutils_value_compare, sqlite_value_type]
    split_ifs with h1 h2 h3 <;> omega
  · intro a b
    simp only [dbutils_value_compare, sqlite_value_type]
    split_ifs with h0 h1 h2
    · exact absurd rfl h0
    · exact iff_of_false (by norm_num) (not_lt.2 h1.le)
    · exact iff_of_true one_pos h2
    · exact iff_of_false (lt_irrefl 0) h2
  · intro xs ys
    simp [dbutils_value_compare, sqlite_value_type]
  · intro xs ys
    constructor
    · intro h
      simp only [dbutils_value_compare, sqlite_value_type]
      rw [if_neg (by simp)]
      simp only [if_pos h]
    · intro h
      simp only [dbutils_value_compare, sqlite_value_type]
      rw [if_neg (by simp)]
      simp [h]
  · intro cfg s pk v col cv r i hfind hcv hidx
    subst hcv
    simp [merge_did_cid_win, merge_get_col_version, hfind, hidx]

/-- C8: on a state with the committed db_version loaded and up to date,
db_version_next(merging) returns max(db_version + 1, pending_db_version,
merging) — the merging argument being ignored when it is unset — and sets
pending_db_version to the returned value, leaving db_version and seq
untouched. -/
theorem db_version_next_is_max :
    ∀ (c : ClockState) (m : Int),
      ((db_version_next c m).1 =
        if m = CLOUDSYNC_VALUE_NOTSET then max (c.db_version + 1) c.pending_db_version
        else max (max (c.db_version + 1) c.pending_db_version) m) ∧
      (db_version_next c m).2.pending_db_version = (db_version_next c m).1 ∧
      (db_version_next c m).2.db_version = c.db_version ∧
      (db_version_next c m).2.seq = c.seq := by
  intro c m
  refine ⟨?_, rfl, rfl, rfl⟩
  simp only [db_version_next, CLOUDSYNC_VALUE_NOTSET, max_def]
  split_ifs <;> omega

/-- Row count of the payload_encode aggregate state after folding the step
function over a list of rows. -/
theorem encode_foldl_nrows (rows : List (List SQLiteValue)) :
    ∀ st : EncodePayloadState,
      (rows.foldl cloudsync_payload_encode_step st).nrows = st.nrows + rows.length := by
  induction rows with
  | nil => intro st; simp
  | cons r rest ih =>
    intro st
    simp only [List.foldl_cons, ih, List.length_cons]
    simp only [cloudsync_payload_encode_step]
    split <;> (first | omega | (dsimp only; omega))

/-- C9: the payload_encode aggregate produces SQL NULL exactly when its step
function was invoked zero times; a payload blob is produced iff at least one
row was aggregated. -/
theorem payload_encode_final_none_iff_empty :
    ∀ (schema_hash : Int) (rows : List (List SQLiteValue)),
      cloudsync_payload_encode_final schema_hash
        (rows.foldl cloudsync_payload_encode_step encodeInit) = none ↔ rows = [] := by
  intro h rows
  simp only [cloudsync_payload_encode_final]
  rw [encode_foldl_nrows]
  simp [encodeInit, List.length_eq_zero]

/-- C10: payload_decode validates its argument before applying anything: a
value that is not a BLOB, or a BLOB shorter than the 32-byte header, yields
a SQLITE_MISUSE error with the database unchanged; decoding and applying
rows happens only for arguments passing both checks. -/
theorem payload_decode_validates {DB : Type} (step : PayloadRow → DB → Option DB)
    (approve : PayloadRow → DB → Bool) (lh : Int) (kh : List Int) (db : DB) :
    cloudsync_payload_decode step approve lh kh SqlValueArg.nonblob db =
      (db, some ApplyErr.misuse) ∧
    (∀ (len : Nat) (content : Payload), len < HEADER_BYTE_SIZE →
      cloudsync_payload_decode step approve lh kh (SqlValueArg.blobArg len content) db =
        (db, some ApplyErr.misuse)) ∧
    (∀ (len : Nat) (content : Payload), HEADER_BYTE_SIZE ≤ len →
      cloudsync_payload_decode step approve lh kh (SqlValueArg.blobArg len content) db =
        cloudsync_payload_apply step approve lh kh content db) := by
  refine ⟨rfl, ?_, ?_⟩
  · intro len content h
    simp only [cloudsync_payload_decode]
    rw [if_pos h]
  · intro len content h
    simp only [cloudsync_payload_decode]
    rw [if_neg (Nat.not_lt.2 h)]

/-- C10 witness: a TEXT argument and a 10-byte blob are rejected with
SQLITE_MISUSE and the database untouched; a 64-byte blob reaches
cloudsync_payload_apply. -/
theorem payload_decode_validates_witness :
    cloudsync_payload_decode c7_step c7_approve 42 [] SqlValueArg.nonblob ([] : List Nat) =
      ([], some ApplyErr.misuse) ∧
    cloudsync_payload_decode c7_step c7_approve 42 [] (SqlValueArg.blobArg 10 c7_payload)
      ([] : List Nat) = ([], some ApplyErr.misuse) ∧
    cloudsync_payload_decode c7_step c7_approve 42 [] (SqlValueArg.blobArg 64 c7_payload)
      ([] : List Nat) = cloudsync_payload_apply c7_step c7_approve 42 [] c7_payload [] :=
  ⟨(payload_decode_validates c7_step c7_approve 42 [] []).1,
   (payload_decode_validates c7_step c7_approve 42 [] []).2.1 10 c7_payload (by decide),
   (payload_decode_validates c7_step c7_approve 42 [] []).2.2 64 c7_payload (by decide)⟩

/-- C7: a payload whose header schema_hash differs from the local hash and
is absent from the cloudsync_schema_versions registry is rejected whole with
a SQLITE_MISMATCH error before any row is applied (the database is returned
unchanged); a payload whose hash is the local hash or a registered hash
passes the gate and is never rejected with a mismatch error. -/
theorem payload_apply_schema_gate {DB : Type} (step : PayloadRow → DB → Option DB)
    (approve : PayloadRow → DB → Bool) (lh : Int) (kh : List Int) (p : Payload) (db : DB) :
    (p.header.schema_hash ≠ lh ∧ ¬ kh.contains p.header.schema_hash →
      cloudsync_payload_apply step approve lh kh p db = (db, some ApplyErr.mismatch)) ∧
    (p.header.schema_hash = lh ∨ kh.contains p.header.schema_hash →
      (cloudsync_payload_apply step approve lh kh p db).2 ≠ some ApplyErr.mismatch) := by
  constructor
  · intro h
    simp only [cloudsync_payload_apply]
    rw [if_pos h]
  · intro h
    have hcond : ¬(p.header.schema_hash ≠ lh ∧ ¬ kh.contains p.header.schema_hash) := by
      rcases h with h | h
      · exact fun hc => hc.1 h
      · exact fun hc => hc.2 h
    simp only [cloudsync_payload_apply]
    rw [if_neg hcond]
    split_ifs <;> simp

/-- C7 witness: with local hash 100 and registry [7], the hash-42 payload is
rejected whole with SQLITE_MISMATCH and no row applied; with local hash 42
the same payload is not rejected with a mismatch. -/
theorem payload_apply_schema_gate_witness :
    cloudsync_payload_apply c7_step c7_approve 100 [7] c7_payload ([] : List Nat) =
      ([], some ApplyErr.mismatch) ∧
    (cloudsync_payload_apply c7_step c7_approve 42 [] c7_payload ([] : List Nat)).2 ≠
      some ApplyErr.mismatch :=
  ⟨(payload_apply_schema_gate c7_step c7_approve 100 [7] c7_payload []).1 ⟨by decide, by decide⟩,
   (payload_apply_schema_gate c7_step c7_approve 42 [] c7_payload []).2 (Or.inl rfl)⟩

/-- Splitting the payload row loop at a list append. -/
theorem payload_apply_rows_append {DB : Type} (step : PayloadRow → DB → Option DB)
    (approve : PayloadRow → DB → Bool) (xs ys : List PayloadRow) (st : DB × Bool) :
    payload_apply_rows step approve (xs ++ ys) st =
      payload_apply_rows step approve ys (payload_apply_rows step approve xs st) := by
  induction xs generalizing st with
  | nil => rfl
  | cons x rest ih =>
    obtain ⟨db, rc⟩ := st
    simp only [List.cons_append, payload_apply_rows]
    split_ifs with h
    · cases hs : step x db <;> simp only [hs] <;> exact ih _
    · exact ih _

/-- C4 counterexample: the payload c4_payload carries two rows of the single
db_version group 1; the second row is approved but its insert fails.  The
claim says the whole db_version group is rolled back, which for this
payload means the final database equals the initial one; the code instead
keeps the first row applied (final database [1] ≠ []) — it logs the failure
and rolls nothing back, there being no savepoint in the apply path. -/
theorem payload_apply_no_group_rollback :
    c4_row_ok.data.db_version = c4_row_bad.data.db_version ∧
    c4_approve c4_row_bad [1] = true ∧
    c4_step c4_row_bad [1] = none ∧
    cloudsync_payload_apply c4_step c4_approve 42 [] c4_payload ([] : List Nat) =
      ([1], some ApplyErr.misuse) ∧
    ([1] : List Nat) ≠ [] := by
  refine ⟨rfl, rfl, by decide, by decide, by decide⟩

/-- C4 (amended): inside a single payload apply there is no savepoint and no
rollback: a row whose insert fails (e.g. denied by row-level security) is
logged and skipped, every other row of the payload — the earlier rows of
the same db_version group included — is still applied, and the failure is
remembered in the rc flag that decides the reported result. -/
theorem payload_apply_skips_failed_row {DB : Type} (step : PayloadRow → DB → Option DB)
    (approve : PayloadRow → DB → Bool) (pre post : List PayloadRow) (r : PayloadRow)
    (db : DB) (rc : Bool)
    (happrove : approve r (payload_apply_rows step approve pre (db, rc)).1 = true)
    (hfail : step r (payload_apply_rows step approve pre (db, rc)).1 = none) :
    payload_apply_rows step approve (pre ++ r :: post) (db, rc) =
      payload_apply_rows step approve post
        ((payload_apply_rows step approve pre (db, rc)).1, false) := by
  rw [payload_apply_rows_append]
  rcases hmid : payload_apply_rows step approve pre (db, rc) with ⟨db1, rc1⟩
  rw [hmid] at happrove hfail
  simp only [payload_apply_rows]
  rw [if_pos happrove, hfail]

/-- C4 witness: in a three-row payload whose middle row fails, the failing
row contributes nothing and both the earlier and the later rows of the
payload are applied. -/
theorem payload_apply_skips_failed_row_witness :
    c4_step c4_row_bad (payload_apply_rows c4_step c4_approve [c4_row_ok]
      (([] : List Nat), true)).1 = none ∧
    payload_apply_rows c4_step c4_approve ([c4_row_ok] ++ c4_row_bad :: [c4_row_ok2])
      (([] : List Nat), true) =
      payload_apply_rows c4_step c4_approve [c4_row_ok2]
        ((payload_apply_rows c4_step c4_approve [c4_row_ok] (([] : List Nat), true)).1, false) :=
  ⟨by decide,
   payload_apply_skips_failed_row c4_step c4_approve [c4_row_ok] [c4_row_ok2] c4_row_bad
     [] true (by decide) (by decide)⟩

/-- C5: the CLS merge engine drops any incoming change whose causal length
is strictly below the local causal length of its primary key, returning
SQLITE_OK with the user table and meta table (the whole state) unchanged. -/
theorem merge_drops_stale_change (cfg : TableCfg) (s : DBState) (ch : Change)
    (halgo : cfg.algo = TableAlgo.cls)
    (hlt : ch.cl < merge_get_local_cl s.meta ch.pk) :
    cloudsync_merge_insert cfg s ch = .ok s := by
  simp only [cloudsync_merge_insert, halgo]
  rw [if_neg (by decide : ¬(TableAlgo.cls = TableAlgo.gos))]
  rw [if_pos hlt]

/-- C5 witness (spec scenario S5): merging a delete with cl 2 for the
never-seen PK 3 into the initial state leaves the tombstone state c5_mid;
the late insert with cl 1 for the same PK is then dropped, the state — the
tombstone included — surviving unchanged. -/
theorem merge_drops_stale_change_witness :
    cloudsync_merge_insert ⟨["age"], TableAlgo.cls⟩ initialState c5_delete_change =
      .ok c5_mid ∧
    merge_get_local_cl c5_mid.meta 3 = 2 ∧
    cloudsync_merge_insert ⟨["age"], TableAlgo.cls⟩ c5_mid c5_stale_change = .ok c5_mid ∧
    (∃ r ∈ c5_mid.meta, r.pk = 3 ∧ r.col_name = CLOUDSYNC_TOMBSTONE_VALUE ∧
      r.col_version = 2) :=
  ⟨by decide, by decide,
   merge_drops_stale_change ⟨["age"], TableAlgo.cls⟩ c5_mid c5_stale_change rfl (by decide),
   by decide⟩

/-- C3: for a table registered with the GOS algorithm the merge engine
treats only column inserts as legal: a change carrying the tombstone
sentinel column name — a delete (even cl) or a sentinel-only row (odd cl)
as produced on the wire — fails with SQLITE_MISUSE instead of being merged,
while a change naming a registered column is dispatched to merge_insert_col
and succeeds. -/
theorem merge_gos_legal_only_insert_col (cfg : TableCfg) (s : DBState) (ch : Change)
    (hwf : CfgWF cfg) (hgos : cfg.algo = TableAlgo.gos) :
    (changeName ch = CLOUDSYNC_TOMBSTONE_VALUE →
      cloudsync_merge_insert cfg s ch = .error MergeErr.misuse) ∧
    (changeName ch ∈ cfg.cols →
      cloudsync_merge_insert cfg s ch = cloudsync_merge_insert_gos cfg s ch ∧
      ∃ s2, cloudsync_merge_insert cfg s ch = .ok s2) := by
  have hdisp : cloudsync_merge_insert cfg s ch = cloudsync_merge_insert_gos cfg s ch := by
    simp only [cloudsync_merge_insert]
    rw [if_pos hgos]
  constructor
  · intro hname
    rw [hdisp]
    simp only [cloudsync_merge_insert_gos, merge_insert_col]
    have hnone : cfg.cols.findIdx? (fun c => decide (c = changeName ch)) = none := by
      rw [List.findIdx?_eq_none_iff]
      intro x hx
      simp only [decide_eq_false_iff_not]
      intro hxe
      apply hwf
      rw [← hname, ← hxe]
      exact hx
    rw [hnone]
  · intro hmem
    refine ⟨hdisp, ?_⟩
    rw [hdisp]
    simp only [cloudsync_merge_insert_gos, merge_insert_col]
    cases hidx : cfg.cols.findIdx? (fun c => decide (c = changeName ch)) with
    | none =>
      rw [List.findIdx?_eq_none_iff] at hidx
      have := hidx _ hmem
      simp at this
    | some i => exact ⟨_, rfl⟩

/-- C3 witness: on a GOS table with column age, a delete change (cl 2,
sentinel name) is rejected with SQLITE_MISUSE; a sentinel-only change
(cl 3) likewise; a column insert succeeds. -/
theorem merge_gos_legal_only_insert_col_witness :
    cloudsync_merge_insert c3_cfg initialState c3_delete_change = .error MergeErr.misuse ∧
    cloudsync_merge_insert c3_cfg initialState ⟨1, none, SQLiteValue.null, 3, 4, [4], 3, 1⟩ =
      .error MergeErr.misuse ∧
    (∃ s2, cloudsync_merge_insert c3_cfg initialState
      ⟨1, some "age", SQLiteValue.integer 5, 1, 4, [4], 1, 1⟩ = .ok s2) :=
  ⟨(merge_gos_legal_only_insert_col c3_cfg initialState c3_delete_change
      (by decide) rfl).1 rfl,
   (merge_gos_legal_only_insert_col c3_cfg initialState
      ⟨1, none, SQLiteValue.null, 3, 4, [4], 3, 1⟩ (by decide) rfl).1 rfl,
   ((merge_gos_legal_only_insert_col c3_cfg initialState
      ⟨1, some "age", SQLiteValue.integer 5, 1, 4, [4], 1, 1⟩ (by decide) rfl).2
      (by decide)).2⟩

/-- Case analysis for membership in a metaUpsert result: the row is the
update of a matching row, an untouched non-matching row, or the fresh row. -/
theorem mem_metaUpsert_elim {m : List MetaRow} {pk : Pk} {col : ColName}
    {fresh : MetaRow} {upd : MetaRow → MetaRow} {x : MetaRow}
    (h : x ∈ metaUpsert m pk col fresh upd) :
    (∃ r ∈ m, (r.pk = pk ∧ r.col_name = col) ∧ x = upd r) ∨
    (x ∈ m ∧ ¬(x.pk = pk ∧ x.col_name = col)) ∨ x = fresh := by
  unfold metaUpsert at h
  by_cases hany : (m.any fun r => decide (r.pk = pk ∧ r.col_name = col)) = true
  · rw [if_pos hany, List.mem_map] at h
    obtain ⟨r, hr, hx⟩ := h
    by_cases hk : r.pk = pk ∧ r.col_name = col
    · exact Or.inl ⟨r, hr, hk, by rw [← hx, if_pos hk]⟩
    · rw [if_neg hk] at hx
      exact Or.inr (Or.inl ⟨hx ▸ hr, hx ▸ hk⟩)
  · rw [if_neg hany] at h
    rcases List.mem_append.1 h with h1 | h1
    · refine Or.inr (Or.inl ⟨h1, fun hk => ?_⟩)
      exact hany (List.any_eq_true.2 ⟨x, h1, by simpa using hk⟩)
    · exact Or.inr (Or.inr (by simpa using h1))

/-- A metaUpsert whose update function is the constant fresh row always
leaves the fresh row present under its key. -/
theorem metaUpsert_const_key_mem (m : List MetaRow) (pk : Pk) (col : ColName)
    (fresh : MetaRow) :
    fresh ∈ metaUpsert m pk col fresh (fun _ => fresh) := by
  unfold metaUpsert
  by_cases hany : (m.any fun r => decide (r.pk = pk ∧ r.col_name = col)) = true
  · rw [if_pos hany]
    rw [List.any_eq_true] at hany
    obtain ⟨r, hr, hk⟩ := hany
    simp only [decide_eq_true_eq] at hk
    rw [List.mem_map]
    exact ⟨r, hr, by rw [if_pos hk]⟩
  · rw [if_neg hany]
    exact List.mem_append.2 (Or.inr (List.mem_singleton.2 rfl))

/-- merge_set_winner_clock leaves the user table untouched. -/
theorem winner_clock_user (s : DBState) (pk : Pk) (cn : Option ColName)
    (cv dv : Int) (site : SiteBlob) (sq : Int) :
    (merge_set_winner_clock s pk cn cv dv site sq).user = s.user := rfl

/-- merge_zeroclock_on_resurrect leaves the user table untouched. -/
theorem zeroclock_user (s : DBState) (dv : Int) (pk : Pk) :
    (merge_zeroclock_on_resurrect s dv pk).user = s.user := by
  unfold merge_zeroclock_on_resurrect
  split <;> rfl

/-- After a sentinel winner-clock write, every sentinel row of the PK
carries exactly the written col_version. -/
theorem winner_clock_sentinel_all (s : DBState) (pk : Pk) (cv dv : Int)
    (site : SiteBlob) (sq : Int) :
    ∀ r ∈ (merge_set_winner_clock s pk none cv dv site sq).meta,
      r.pk = pk → r.col_name = CLOUDSYNC_TOMBSTONE_VALUE → r.col_version = cv := by
  intro r hr hpk hname
  simp only [merge_set_winner_clock, Option.getD_none] at hr
  rcases mem_metaUpsert_elim hr with ⟨r0, _, _, heq⟩ | ⟨_, hnk⟩ | heq
  · rw [heq]
  · exact absurd ⟨hpk, hname⟩ hnk
  · rw [heq]

/-- After a sentinel winner-clock write, a sentinel row of the PK with the
written col_version exists. -/
theorem winner_clock_sentinel_exists (s : DBState) (pk : Pk) (cv dv : Int)
    (site : SiteBlob) (sq : Int) :
    ∃ r ∈ (merge_set_winner_clock s pk none cv dv site sq).meta,
      r.pk = pk ∧ r.col_name = CLOUDSYNC_TOMBSTONE_VALUE ∧ r.col_version = cv := by
  simp only [merge_set_winner_clock, Option.getD_none]
  exact ⟨_, metaUpsert_const_key_mem _ pk CLOUDSYNC_TOMBSTONE_VALUE _, rfl, rfl, rfl⟩

/-- merge_sentinel_only_insert puts the PK into the user table. -/
theorem sentinel_only_user_isSome (cfg : TableCfg) (s : DBState) (pk : Pk)
    (cl dv : Int) (site : SiteBlob) (sq : Int) :
    (userFind (merge_sentinel_only_insert cfg s pk cl dv site sq).user pk).isSome = true := by
  unfold merge_sentinel_only_insert
  rw [winner_clock_user, zeroclock_user]
  cases hf : userFind s.user pk with
  | some u => simp [hf]
  | none =>
    simp only [hf]
    unfold userFind at hf ⊢
    rw [List.find?_append, hf]
    simp [List.find?]

/-- merge_sentinel_only_insert writes the sentinel of the PK at exactly the
supplied causal length. -/
theorem sentinel_only_sentinel_desc (cfg : TableCfg) (s : DBState) (pk : Pk)
    (cl dv : Int) (site : SiteBlob) (sq : Int) :
    (∀ r ∈ (merge_sentinel_only_insert cfg s pk cl dv site sq).meta,
      r.pk = pk → r.col_name = CLOUDSYNC_TOMBSTONE_VALUE → r.col_version = cl) ∧
    (∃ r ∈ (merge_sentinel_only_insert cfg s pk cl dv site sq).meta,
      r.pk = pk ∧ r.col_name = CLOUDSYNC_TOMBSTONE_VALUE ∧ r.col_version = cl) := by
  unfold merge_sentinel_only_insert
  exact ⟨winner_clock_sentinel_all _ pk cl dv site sq,
    winner_clock_sentinel_exists _ pk cl dv site sq⟩

/-- C6: a CLS column write with odd cl strictly above the local causal
length, arriving when the row exists locally or cl > 1, is applied by first
performing the sentinel-only resurrect step — the PK is inserted into the
user table and the sentinel meta row is written at col_version = cl (odd,
row alive) — and only then running the column-write phase on the resurrected
state. -/
theorem merge_resurrect_before_column (cfg : TableCfg) (s : DBState) (ch : Change)
    (halgo : cfg.algo = TableAlgo.cls)
    (hname : changeName ch ≠ CLOUDSYNC_TOMBSTONE_VALUE)
    (hodd : ch.cl % 2 = 1)
    (hgt : merge_get_local_cl s.meta ch.pk < ch.cl)
    (hcond : merge_get_local_cl s.meta ch.pk ≠ 0 ∨ 1 < ch.cl) :
    cloudsync_merge_insert cfg s ch =
      merge_column_phase cfg
        (merge_sentinel_only_insert cfg s ch.pk ch.cl ch.db_version ch.site_id ch.seq) ch
        true (decide (merge_get_local_cl s.meta ch.pk ≠ 0)) ∧
    (∃ r ∈ (merge_sentinel_only_insert cfg s ch.pk ch.cl ch.db_version ch.site_id ch.seq).meta,
      r.pk = ch.pk ∧ r.col_name = CLOUDSYNC_TOMBSTONE_VALUE ∧ r.col_version = ch.cl) ∧
    (∀ r ∈ (merge_sentinel_only_insert cfg s ch.pk ch.cl ch.db_version ch.site_id ch.seq).meta,
      r.pk = ch.pk → r.col_name = CLOUDSYNC_TOMBSTONE_VALUE → r.col_version = ch.cl) ∧
    (userFind (merge_sentinel_only_insert cfg s ch.pk ch.cl ch.db_version
      ch.site_id ch.seq).user ch.pk).isSome = true := by
  refine ⟨?_, (sentinel_only_sentinel_desc cfg s ch.pk ch.cl ch.db_version ch.site_id ch.seq).2,
    (sentinel_only_sentinel_desc cfg s ch.pk ch.cl ch.db_version ch.site_id ch.seq).1,
    sentinel_only_user_isSome cfg s ch.pk ch.cl ch.db_version ch.site_id ch.seq⟩
  have hnr : decide (ch.cl > merge_get_local_cl s.meta ch.pk ∧ ch.cl % 2 = 1) = true :=
    decide_eq_true ⟨hgt, hodd⟩
  have hb : (decide (merge_get_local_cl s.meta ch.pk ≠ 0) ||
      (!decide (merge_get_local_cl s.meta ch.pk ≠ 0) && decide (ch.cl > 1))) = true := by
    rcases hcond with h | h
    · simp [h]
    · by_cases hz : merge_get_local_cl s.meta ch.pk = 0 <;> simp [hz, h]
  simp only [cloudsync_merge_insert, halgo]
  rw [if_neg (by decide : ¬(TableAlgo.cls = TableAlgo.gos))]
  rw [if_neg (lt_asymm hgt)]
  rw [if_neg (by omega : ¬(ch.cl % 2 = 0))]
  rw [if_neg hname]
  rw [hnr, Bool.true_and, hb]
  rw [if_pos rfl]

/-- C6 witness: the column write c6_change (cl 3) against the initial state
(local_cl 0) first resurrects — the intermediate state has PK 4 in the user
table and its sentinel at col_version 3 — and the merge result equals the
column phase run on that intermediate state. -/
theorem merge_resurrect_before_column_witness :
    cloudsync_merge_insert ⟨["age"], TableAlgo.cls⟩ initialState c6_change =
      merge_column_phase ⟨["age"], TableAlgo.cls⟩
        (merge_sentinel_only_insert ⟨["age"], TableAlgo.cls⟩ initialState 4 3 9 [5] 0)
        c6_change true (decide (merge_get_local_cl initialState.meta 4 ≠ 0)) ∧
    (∃ r ∈ (merge_sentinel_only_insert ⟨["age"], TableAlgo.cls⟩ initialState 4 3 9 [5] 0).meta,
      r.pk = 4 ∧ r.col_name = CLOUDSYNC_TOMBSTONE_VALUE ∧ r.col_version = 3) ∧
    (userFind (merge_sentinel_only_insert ⟨["age"], TableAlgo.cls⟩
      initialState 4 3 9 [5] 0).user 4).isSome = true :=
  ⟨(merge_resurrect_before_column ⟨["age"], TableAlgo.cls⟩ initialState c6_change rfl
      (by decide) (by decide) (by decide) (Or.inr (by decide))).1,
   (merge_resurrect_before_column ⟨["age"], TableAlgo.cls⟩ initialState c6_change rfl
      (by decide) (by decide) (by decide) (Or.inr (by decide))).2.1,
   (merge_resurrect_before_column ⟨["age"], TableAlgo.cls⟩ initialState c6_change rfl
      (by decide) (by decide) (by decide) (Or.inr (by decide))).2.2.2⟩

/-! ## Generic lemmas for the meta-table invariant induction -/

/-- Membership elimination for key-preserving conditional maps. -/
theorem mem_map_ite_elim {m : List MetaRow} {P : MetaRow → Prop} [DecidablePred P]
    {g : MetaRow → MetaRow} {x : MetaRow}
    (h : x ∈ m.map fun r => if P r then g r else r) :
    (∃ r ∈ m, P r ∧ x = g r) ∨ (x ∈ m ∧ ¬P x) := by
  rw [List.mem_map] at h
  obtain ⟨r, hr, hx⟩ := h
  by_cases hp : P r
  · exact Or.inl ⟨r, hr, hp, by rw [← hx, if_pos hp]⟩
  · rw [if_neg hp] at hx
    exact Or.inr ⟨hx ▸ hr, hx ▸ hp⟩

/-- Key uniqueness survives a conditional map whose function preserves the
row key. -/
theorem metaKeysNodup_map_ite {m : List MetaRow} (P : MetaRow → Prop) [DecidablePred P]
    (g : MetaRow → MetaRow)
    (hg : ∀ r, P r → (g r).pk = r.pk ∧ (g r).col_name = r.col_name)
    (hnd : MetaKeysNodup m) :
    MetaKeysNodup (m.map fun r => if P r then g r else r) := by
  have keyf : ∀ x : MetaRow,
      ((if P x then g x else x).pk = x.pk ∧ (if P x then g x else x).col_name = x.col_name) := by
    intro x
    by_cases hp : P x
    · rw [if_pos hp]
      exact hg x hp
    · rw [if_neg hp]
      exact ⟨rfl, rfl⟩
  refine List.Pairwise.map _ (fun a b hab => ?_) hnd
  rw [(keyf a).1, (keyf a).2, (keyf b).1, (keyf b).2]
  exact hab

/-- Key uniqueness survives a metaUpsert whose update preserves the matched
key and whose fresh row carries the key. -/
theorem metaKeysNodup_metaUpsert {m : List MetaRow} {pk : Pk} {col : ColName}
    {fresh : MetaRow} {upd : MetaRow → MetaRow}
    (hnd : MetaKeysNodup m)
    (hfpk : fresh.pk = pk) (hfcol : fresh.col_name = col)
    (hupd : ∀ r, r.pk = pk → r.col_name = col → (upd r).pk = r.pk ∧ (upd r).col_name = r.col_name) :
    MetaKeysNodup (metaUpsert m pk col fresh upd) := by
  unfold metaUpsert
  by_cases hany : (m.any fun r => decide (r.pk = pk ∧ r.col_name = col)) = true
  · rw [if_pos hany]
    exact metaKeysNodup_map_ite _ _ (fun r hk => hupd r hk.1 hk.2) hnd
  · rw [if_neg hany]
    rw [MetaKeysNodup, List.pairwise_append]
    refine ⟨hnd, List.pairwise_singleton _ _, ?_⟩
    intro a ha b hb
    rw [List.mem_singleton] at hb
    subst hb
    intro hk
    apply hany
    refine List.any_eq_true.2 ⟨a, ha, ?_⟩
    simp only [decide_eq_true_eq]
    exact ⟨hk.1.trans hfpk, hk.2.trans hfcol⟩

/-- Key uniqueness survives a filter. -/
theorem metaKeysNodup_filter {m : List MetaRow} (p : MetaRow → Bool)
    (hnd : MetaKeysNodup m) : MetaKeysNodup (m.filter p) :=
  List.Pairwise.sublist (List.filter_sublist m) hnd

/-- SentinelAt transfers along a sentinel subset. -/
theorem sentinelAt_of_subset {m2 m : List MetaRow} {pk : Pk} {P : Int → Prop}
    (hsub : SentinelSubset m2 m) (h : SentinelAt m pk P) : SentinelAt m2 pk P :=
  fun r hr hpk hcol => h r (hsub r hr hcol) hpk hcol

/-- A conditional map that touches no sentinel row (its condition excludes
them and its output never carries the sentinel name on touched rows — here
the touched rows keep their non-sentinel name) yields a sentinel subset. -/
theorem sentinelSubset_map_ite_nonsentinel {m : List MetaRow} (P : MetaRow → Prop)
    [DecidablePred P] (g : MetaRow → MetaRow)
    (hg : ∀ r, P r → (g r).col_name = r.col_name)
    (hP : ∀ r, P r → r.col_name ≠ CLOUDSYNC_TOMBSTONE_VALUE) :
    SentinelSubset (m.map fun r => if P r then g r else r) m := by
  intro x hx hcol
  rcases mem_map_ite_elim hx with ⟨r, hr, hp, hxe⟩ | ⟨hm, _⟩
  · exact absurd (by rw [← hg r hp, ← hxe]; exact hcol) (hP r hp)
  · exact hm

/-- A filter yields a sentinel subset. -/
theorem sentinelSubset_filter {m : List MetaRow} (p : MetaRow → Bool) :
    SentinelSubset (m.filter p) m :=
  fun x hx _ => (List.mem_filter.1 hx).1

/-- A column upsert (key col_name not the sentinel, update preserving the
matched key) yields a sentinel subset. -/
theorem sentinelSubset_metaUpsert_col {m : List MetaRow} {pk : Pk} {col : ColName}
    {fresh : MetaRow} {upd : MetaRow → MetaRow}
    (hcol : col ≠ CLOUDSYNC_TOMBSTONE_VALUE)
    (hfcol : fresh.col_name = col)
    (hupd : ∀ r, r.pk = pk → r.col_name = col → (upd r).col_name = r.col_name) :
    SentinelSubset (metaUpsert m pk col fresh upd) m := by
  intro x hx hxcol
  rcases mem_metaUpsert_elim hx with ⟨r, hr, hk, hxe⟩ | ⟨hm, _⟩ | hxe
  · exfalso
    apply hcol
    have hxc : x.col_name = col := by
      rw [hxe, hupd r hk.1 hk.2, hk.2]
    rw [← hxc, hxcol]
  · exact hm
  · exfalso
    apply hcol
    rw [← hfcol, ← hxe, hxcol]

/-- ColRowExists is unchanged by a key-preserving conditional map. -/
theorem colRowExists_map_ite {m : List MetaRow} (P : MetaRow → Prop) [DecidablePred P]
    (g : MetaRow → MetaRow)
    (hg : ∀ r, P r → (g r).pk = r.pk ∧ (g r).col_name = r.col_name) (q : Pk) :
    ColRowExists (m.map fun r => if P r then g r else r) q ↔ ColRowExists m q := by
  constructor
  · intro ⟨x, hx, hxpk, hxcol⟩
    rcases mem_map_ite_elim hx with ⟨r, hr, hp, hxe⟩ | ⟨hm, _⟩
    · exact ⟨r, hr, by rw [← (hg r hp).1, ← hxe]; exact hxpk,
        by rw [← (hg r hp).2, ← hxe]; exact hxcol⟩
    · exact ⟨x, hm, hxpk, hxcol⟩
  · intro ⟨r, hr, hpk, hcol⟩
    refine ⟨if P r then g r else r, List.mem_map.2 ⟨r, hr, rfl⟩, ?_, ?_⟩
    · by_cases hp : P r
      · rw [if_pos hp, (hg r hp).1]; exact hpk
      · rw [if_neg hp]; exact hpk
    · by_cases hp : P r
      · rw [if_pos hp, (hg r hp).2]; exact hcol
      · rw [if_neg hp]; exact hcol

/-- Forward direction of ColRowExists through a metaUpsert: a column row of
the result either existed already or sits at the upsert PK with a
non-sentinel upsert column. -/
theorem colRowExists_metaUpsert_elim {m : List MetaRow} {pk : Pk} {col : ColName}
    {fresh : MetaRow} {upd : MetaRow → MetaRow} {q : Pk}
    (hfpk : fresh.pk = pk) (hfcol : fresh.col_name = col)
    (hupd : ∀ r, r.pk = pk → r.col_name = col → (upd r).pk = r.pk ∧ (upd r).col_name = r.col_name)
    (h : ColRowExists (metaUpsert m pk col fresh upd) q) :
    ColRowExists m q ∨ q = pk := by
  obtain ⟨x, hx, hxpk, hxcol⟩ := h
  rcases mem_metaUpsert_elim hx with ⟨r, hr, hk, hxe⟩ | ⟨hm, _⟩ | hxe
  · exact Or.inr (by rw [← hxpk, hxe, (hupd r hk.1 hk.2).1, hk.1])
  · exact Or.inl ⟨x, hm, hxpk, hxcol⟩
  · exact Or.inr (by rw [← hxpk, hxe, hfpk])

/-- Forward direction of ColRowExists through a filter. -/
theorem colRowExists_filter {m : List MetaRow} {p : MetaRow → Bool} {q : Pk}
    (h : ColRowExists (m.filter p) q) : ColRowExists m q := by
  obtain ⟨x, hx, hxpk, hxcol⟩ := h
  exact ⟨x, (List.mem_filter.1 hx).1, hxpk, hxcol⟩

/-- With unique keys, a member row is exactly what metaFind returns for its
key. -/
theorem metaFind_of_mem_nodup {m : List MetaRow} {r : MetaRow} {pk : Pk} {col : ColName}
    (hnd : MetaKeysNodup m) (hr : r ∈ m) (hpk : r.pk = pk) (hcol : r.col_name = col) :
    metaFind m pk col = some r := by
  induction m with
  | nil => cases hr
  | cons a rest ih =>
    rw [MetaKeysNodup, List.pairwise_cons] at hnd
    rcases List.mem_cons.1 hr with heq | hmem
    · subst heq
      unfold metaFind
      rw [List.find?_cons_of_pos]
      simp [hpk, hcol]
    · unfold metaFind
      by_cases hk : a.pk = pk ∧ a.col_name = col
      · exact absurd ⟨hk.1.trans hpk.symm, hk.2.trans hcol.symm⟩ (hnd.1 r hmem)
      · rw [List.find?_cons_of_neg _ (by simpa using hk)]
        exact ih hnd.2 hmem

/-- If the local causal length is 0 the PK has no meta rows at all (the
sentinel, when present, has col_version at least 1). -/
theorem local_cl_zero_no_rows {m : List MetaRow} {pk : Pk}
    (hge : SentinelsGeOne m) (h : merge_get_local_cl m pk = 0) :
    ∀ r ∈ m, r.pk ≠ pk := by
  intro r hr hpk
  unfold merge_get_local_cl at h
  cases hf : metaFind m pk CLOUDSYNC_TOMBSTONE_VALUE with
  | some r0 =>
    rw [hf] at h
    have h0 : r0.col_version = 0 := h
    have hr0 : r0 ∈ m := List.mem_of_find?_eq_some hf
    have hcol : r0.col_name = CLOUDSYNC_TOMBSTONE_VALUE := by
      have := List.find?_some hf
      simp only [decide_eq_true_eq] at this
      exact this.2
    have := hge r0 hr0 hcol
    omega
  | none =>
    rw [hf] at h
    have hany : (m.any fun r2 => decide (r2.pk = pk)) = true :=
      List.any_eq_true.2 ⟨r, hr, by simpa using hpk⟩
    have h1 : (if (m.any fun r2 => decide (r2.pk = pk)) = true then (1 : Int) else 0) = 0 := h
    rw [if_pos hany] at h1
    exact absurd h1 (by decide)

/-- SentinelSubset is reflexive. -/
theorem sentinelSubset_refl (m : List MetaRow) : SentinelSubset m m :=
  fun _ hr _ => hr

/-- SentinelSubset is transitive. -/
theorem sentinelSubset_trans {m3 m2 m : List MetaRow}
    (h32 : SentinelSubset m3 m2) (h21 : SentinelSubset m2 m) : SentinelSubset m3 m :=
  fun r hr hcol => h21 r (h32 r hr hcol) hcol

/-- A sentinel upsert creates no column rows: every non-sentinel row of the
result already occurs in the input. -/
theorem nonsentinel_mem_metaUpsert_sentinel {m : List MetaRow} {pk : Pk}
    {fresh : MetaRow} {upd : MetaRow → MetaRow}
    (hf : fresh.col_name = CLOUDSYNC_TOMBSTONE_VALUE)
    (hu : ∀ r, r.pk = pk → r.col_name = CLOUDSYNC_TOMBSTONE_VALUE →
      (upd r).col_name = CLOUDSYNC_TOMBSTONE_VALUE) :
    ∀ x ∈ metaUpsert m pk CLOUDSYNC_TOMBSTONE_VALUE fresh upd,
      x.col_name ≠ CLOUDSYNC_TOMBSTONE_VALUE → x ∈ m := by
  intro x hx hxcol
  rcases mem_metaUpsert_elim hx with ⟨r, hr, hk, hxe⟩ | ⟨hm, _⟩ | hxe
  · exact absurd (by rw [hxe]; exact hu r hk.1 hk.2) hxcol
  · exact hm
  · exact absurd (by rw [hxe]; exact hf) hxcol

/-- ColRowExists transfers backwards through a sentinel upsert. -/
theorem colRowExists_metaUpsert_sentinel {m : List MetaRow} {pk : Pk}
    {fresh : MetaRow} {upd : MetaRow → MetaRow} {q : Pk}
    (hf : fresh.col_name = CLOUDSYNC_TOMBSTONE_VALUE)
    (hu : ∀ r, r.pk = pk → r.col_name = CLOUDSYNC_TOMBSTONE_VALUE →
      (upd r).col_name = CLOUDSYNC_TOMBSTONE_VALUE)
    (h : ColRowExists (metaUpsert m pk CLOUDSYNC_TOMBSTONE_VALUE fresh upd) q) :
    ColRowExists m q := by
  obtain ⟨x, hx, hxpk, hxcol⟩ := h
  exact ⟨x, nonsentinel_mem_metaUpsert_sentinel hf hu x hx hxcol, hxpk, hxcol⟩

/-- Membership elimination for moveRows: every output row is a moved input
row, re-keyed to the new PK with col_version 1 and some seq. -/
theorem mem_moveRows_elim {newpk : Pk} {dv : Int} {rows : List MetaRow} {sq : Int}
    {x : MetaRow} (h : x ∈ moveRows newpk dv rows sq) :
    ∃ r ∈ rows, ∃ q : Int,
      x = { r with pk := newpk, db_version := dv, col_version := 1, seq := q, site_id := 0 } := by
  induction rows generalizing sq with
  | nil => cases h
  | cons a rest ih =>
    rcases List.mem_cons.1 h with heq | hmem
    · exact ⟨a, List.mem_cons_self a rest, sq, heq⟩
    · obtain ⟨r, hr, q, hq⟩ := ih hmem
      exact ⟨r, List.mem_cons_of_mem a hr, q, hq⟩

/-- moveRows keys: moved rows sit at the new PK with their original column
name. -/
theorem moveRows_keys {newpk : Pk} {dv : Int} {rows : List MetaRow} {sq : Int}
    {x : MetaRow} (h : x ∈ moveRows newpk dv rows sq) :
    x.pk = newpk ∧ ∃ r ∈ rows, x.col_name = r.col_name ∧ x.col_version = 1 := by
  obtain ⟨r, hr, q, hq⟩ := mem_moveRows_elim h
  exact ⟨by rw [hq], r, hr, by rw [hq], by rw [hq]⟩

/-- moveRows of rows with pairwise distinct column names has unique keys. -/
theorem metaKeysNodup_moveRows (newpk : Pk) (dv : Int) (rows : List MetaRow)
    (hdist : rows.Pairwise fun a b => a.col_name ≠ b.col_name) :
    ∀ sq : Int, MetaKeysNodup (moveRows newpk dv rows sq) := by
  induction rows with
  | nil => intro sq; exact List.Pairwise.nil
  | cons a rest ih =>
    intro sq
    rw [List.pairwise_cons] at hdist
    unfold moveRows
    rw [MetaKeysNodup, List.pairwise_cons]
    refine ⟨?_, ih hdist.2 (sq + 1)⟩
    intro x hx hk
    obtain ⟨r, hr, q, hq⟩ := mem_moveRows_elim hx
    apply hdist.1 r hr
    have : x.col_name = r.col_name := by rw [hq]
    rw [← this, ← hk.2]

/-- userFind characterization: none means no row with the PK. -/
theorem userFind_eq_none_iff {u : List UserRow} {pk : Pk} :
    userFind u pk = none ↔ ∀ r ∈ u, r.pk ≠ pk := by
  unfold userFind
  rw [List.find?_eq_none]
  constructor
  · intro h r hr hpk
    exact (h r hr) (by simpa using hpk)
  · intro h r hr
    simpa using h r hr

/-- Generic foldl invariant principle. -/
theorem foldl_invariant {α : Type _} {β : Type _} (f : α → β → α) (P : α → Prop)
    (l : List β) (hstep : ∀ x, P x → ∀ b ∈ l, P (f x b)) :
    ∀ a, P a → P (l.foldl f a) := by
  induction l with
  | nil => intro a ha; exact ha
  | cons b rest ih =>
    intro a ha
    exact ih (fun x hx c hc => hstep x hx c (List.mem_cons_of_mem b hc)) _
      (hstep a ha b (List.mem_cons_self b rest))

/-- SentinelsGeOne transfers along a sentinel subset. -/
theorem sentinelsGeOne_of_subset {m2 m : List MetaRow}
    (hsub : SentinelSubset m2 m) (h : SentinelsGeOne m) : SentinelsGeOne m2 :=
  fun r hr hcol => h r (hsub r hr hcol) hcol

/-- Facts about the local sentinel insert statement: key uniqueness and
sentinel lower bounds carry over, no column row is created, sentinels
outside the PK are untouched and the sentinel of the PK comes out odd. -/
theorem local_mark_insert_sentinel_meta_facts (m : List MetaRow) (pk : Pk) (dv sq : Int)
    (hnd : MetaKeysNodup m) (hge : SentinelsGeOne m) :
    MetaKeysNodup (local_mark_insert_sentinel_meta m pk dv sq) ∧
    SentinelsGeOne (local_mark_insert_sentinel_meta m pk dv sq) ∧
    (∀ q, ColRowExists (local_mark_insert_sentinel_meta m pk dv sq) q → ColRowExists m q) ∧
    (∀ r ∈ local_mark_insert_sentinel_meta m pk dv sq,
      r.col_name = CLOUDSYNC_TOMBSTONE_VALUE →
      (r.pk ≠ pk → r ∈ m) ∧ (r.pk = pk → r.col_version % 2 = 1)) := by
  unfold local_mark_insert_sentinel_meta
  refine ⟨metaKeysNodup_metaUpsert hnd rfl rfl (fun r _ _ => ⟨rfl, rfl⟩), ?_, ?_, ?_⟩
  · intro r hr hcol
    rcases mem_metaUpsert_elim hr with ⟨r0, hr0, hk, heq⟩ | ⟨hm, _⟩ | heq
    · have hge0 := hge r0 hr0 hk.2
      rw [heq]
      show 1 ≤ (if r0.col_version % 2 = 0 then r0.col_version + 1 else r0.col_version + 2)
      split_ifs <;> omega
    · exact hge r hm hcol
    · rw [heq]
  · intro q hq
    refine colRowExists_metaUpsert_sentinel ?_ ?_ hq
    · rfl
    · intro r _ hc
      exact hc
  · intro r hr hcol
    rcases mem_metaUpsert_elim hr with ⟨r0, hr0, hk, heq⟩ | ⟨hm, hnk⟩ | heq
    · constructor
      · intro hne
        exact absurd (by rw [heq]; exact hk.1) hne
      · intro _
        rw [heq]
        show (if r0.col_version % 2 = 0 then r0.col_version + 1 else r0.col_version + 2) % 2 = 1
        split_ifs with h <;> omega
    · exact ⟨fun _ => hm, fun hpk => absurd ⟨hpk, hcol⟩ hnk⟩
    · constructor
      · intro hne
        exact absurd (by rw [heq]) hne
      · intro _
        rw [heq]
        show (1 : Int) % 2 = 1
        decide

/-- Facts about the local sentinel update statement, in the same shape. -/
theorem local_update_sentinel_facts (m : List MetaRow) (pk : Pk) (dv sq : Int)
    (hnd : MetaKeysNodup m) (hge : SentinelsGeOne m) :
    MetaKeysNodup (local_update_sentinel m pk dv sq) ∧
    SentinelsGeOne (local_update_sentinel m pk dv sq) ∧
    (∀ q, ColRowExists (local_update_sentinel m pk dv sq) q ↔ ColRowExists m q) ∧
    (∀ r ∈ local_update_sentinel m pk dv sq, r.col_name = CLOUDSYNC_TOMBSTONE_VALUE →
      (r.pk ≠ pk → r ∈ m) ∧ (r.pk = pk → r.col_version % 2 = 1)) := by
  unfold local_update_sentinel
  refine ⟨metaKeysNodup_map_ite
      (fun r => r.pk = pk ∧ r.col_name = CLOUDSYNC_TOMBSTONE_VALUE) _
      (fun r _ => ⟨rfl, rfl⟩) hnd, ?_, ?_, ?_⟩
  · intro r hr hcol
    rcases mem_map_ite_elim hr with ⟨r0, hr0, hp, heq⟩ | ⟨hm, _⟩
    · have hge0 := hge r0 hr0 hp.2
      rw [heq]
      show 1 ≤ (if r0.col_version % 2 = 0 then r0.col_version + 1 else r0.col_version + 2)
      split_ifs <;> omega
    · exact hge r hm hcol
  · intro q
    apply colRowExists_map_ite
    intro r _
    exact ⟨rfl, rfl⟩
  · intro r hr hcol
    rcases mem_map_ite_elim hr with ⟨r0, hr0, hp, heq⟩ | ⟨hm, hnp⟩
    · constructor
      · intro hne
        exact absurd (by rw [heq]; exact hp.1) hne
      · intro _
        have hge0 := hge r0 hr0 hp.2
        rw [heq]
        show (if r0.col_version % 2 = 0 then r0.col_version + 1 else r0.col_version + 2) % 2 = 1
        split_ifs <;> omega
    · exact ⟨fun _ => hm, fun hpk => absurd ⟨hpk, hcol⟩ hnp⟩

/-- The facts about cloudsync_insert needed by the invariant induction:
capture only touches the meta table (and clock); key uniqueness and
sentinel lower bounds carry over, new column rows appear only at the
inserted PK, and sentinels are untouched outside the PK and odd at it. -/
theorem cloudsync_insert_facts (cfg : TableCfg) (hwf : CfgWF cfg) (s : DBState) (pk : Pk)
    (hnd : MetaKeysNodup s.meta) (hge : SentinelsGeOne s.meta) :
    (cloudsync_insert cfg s pk).user = s.user ∧
    MetaKeysNodup (cloudsync_insert cfg s pk).meta ∧
    SentinelsGeOne (cloudsync_insert cfg s pk).meta ∧
    (∀ q, ColRowExists (cloudsync_insert cfg s pk).meta q → ColRowExists s.meta q ∨ q = pk) ∧
    (∀ r ∈ (cloudsync_insert cfg s pk).meta, r.col_name = CLOUDSYNC_TOMBSTONE_VALUE →
      (r.pk ≠ pk → r ∈ s.meta) ∧ (r.pk = pk → r.col_version % 2 = 1)) := by
  have key : ∀ (dv : Int) (init : DBState),
      init.user = s.user →
      MetaKeysNodup init.meta →
      SentinelsGeOne init.meta →
      (∀ q, ColRowExists init.meta q → ColRowExists s.meta q ∨ q = pk) →
      (∀ r ∈ init.meta, r.col_name = CLOUDSYNC_TOMBSTONE_VALUE →
        (r.pk ≠ pk → r ∈ s.meta) ∧ (r.pk = pk → r.col_version % 2 = 1)) →
      (fun st : DBState =>
        st.user = s.user ∧ MetaKeysNodup st.meta ∧ SentinelsGeOne st.meta ∧
        (∀ q, ColRowExists st.meta q → ColRowExists s.meta q ∨ q = pk) ∧
        (∀ r ∈ st.meta, r.col_name = CLOUDSYNC_TOMBSTONE_VALUE →
          (r.pk ≠ pk → r ∈ s.meta) ∧ (r.pk = pk → r.col_version % 2 = 1)))
      (cfg.cols.foldl (fun acc col =>
        let sqClock := bump_seq acc.clock
        { acc with meta := local_mark_insert_or_update_meta acc.meta pk col dv sqClock.1,
                   clock := sqClock.2 }) init) := by
    intro dv init h1 h2 h3 h4 h5
    refine foldl_invariant _
      (fun st : DBState =>
        st.user = s.user ∧ MetaKeysNodup st.meta ∧ SentinelsGeOne st.meta ∧
        (∀ q, ColRowExists st.meta q → ColRowExists s.meta q ∨ q = pk) ∧
        (∀ r ∈ st.meta, r.col_name = CLOUDSYNC_TOMBSTONE_VALUE →
          (r.pk ≠ pk → r ∈ s.meta) ∧ (r.pk = pk → r.col_version % 2 = 1)))
      cfg.cols ?_ init ⟨h1, h2, h3, h4, h5⟩
    intro x hx col hcol
    obtain ⟨hx1, hx2, hx3, hx4, hx5⟩ := hx
    have hcolne : col ≠ CLOUDSYNC_TOMBSTONE_VALUE := fun hh => hwf (hh ▸ hcol)
    have hsub : SentinelSubset
        (local_mark_insert_or_update_meta x.meta pk col dv (bump_seq x.clock).1) x.meta := by
      unfold local_mark_insert_or_update_meta local_mark_insert_or_update_meta_impl
      refine sentinelSubset_metaUpsert_col hcolne rfl ?_
      intro r _ _
      rfl
    dsimp only
    refine ⟨hx1, ?_, sentinelsGeOne_of_subset hsub hx3, ?_, ?_⟩
    · unfold local_mark_insert_or_update_meta local_mark_insert_or_update_meta_impl
      exact metaKeysNodup_metaUpsert hx2 rfl rfl (fun r _ _ => ⟨rfl, rfl⟩)
    · intro q hq
      have helim : ColRowExists x.meta q ∨ q = pk := by
        unfold local_mark_insert_or_update_meta local_mark_insert_or_update_meta_impl at hq
        refine colRowExists_metaUpsert_elim ?_ ?_ ?_ hq
        · rfl
        · rfl
        · intro r _ _
          exact ⟨rfl, rfl⟩
      rcases helim with h | h
      · exact hx4 q h
      · exact Or.inr h
    · intro r hr hcol2
      exact hx5 r (hsub r hr hcol2) hcol2
  simp only [cloudsync_insert]
  apply key
  · split_ifs <;> rfl
  · split_ifs with h1 h2
    · exact (local_mark_insert_sentinel_meta_facts s.meta pk _ _ hnd hge).1
    · exact (local_update_sentinel_facts s.meta pk _ _ hnd hge).1
    · exact hnd
  · split_ifs with h1 h2
    · exact (local_mark_insert_sentinel_meta_facts s.meta pk _ _ hnd hge).2.1
    · exact (local_update_sentinel_facts s.meta pk _ _ hnd hge).2.1
    · exact hge
  · split_ifs with h1 h2
    · exact fun q hq =>
        Or.inl ((local_mark_insert_sentinel_meta_facts s.meta pk _ _ hnd hge).2.2.1 q hq)
    · exact fun q hq =>
        Or.inl (((local_update_sentinel_facts s.meta pk _ _ hnd hge).2.2.1 q).1 hq)
    · exact fun q hq => Or.inl hq
  · split_ifs with h1 h2
    · exact (local_mark_insert_sentinel_meta_facts s.meta pk _ _ hnd hge).2.2.2
    · exact (local_update_sentinel_facts s.meta pk _ _ hnd hge).2.2.2
    · exact fun r hr hcol => ⟨fun _ => hr, fun hpk => absurd
        (List.any_eq_true.2 ⟨r, hr, by simpa using hpk⟩) h2⟩

/-- Inv is preserved by a local INSERT: the user-table insert of a fresh PK
followed by the cloudsync_insert capture. -/
theorem inv_local_insert (cfg : TableCfg) (hwf : CfgWF cfg) (s : DBState)
    (pk : Pk) (vals : List SQLiteValue) (hinv : Inv cfg s) :
    Inv cfg (cloudsync_insert cfg { s with user := s.user ++ [⟨pk, vals⟩] } pk) := by
  obtain ⟨hnd, hge, hodd, huser, hgos⟩ := hinv
  obtain ⟨fu, fnd, fge, fcol, fdesc⟩ :=
    cloudsync_insert_facts cfg hwf { s with user := s.user ++ [⟨pk, vals⟩] } pk hnd hge
  refine ⟨fnd, fge, ?_, ?_, ?_⟩
  · intro r hr hcol hcolrow
    by_cases hpk : r.pk = pk
    · exact (fdesc r hr hcol).2 hpk
    · have hrm : r ∈ s.meta := (fdesc r hr hcol).1 hpk
      rcases fcol r.pk hcolrow with h | h
      · exact hodd r hrm hcol h
      · exact absurd h hpk
  · intro u hu r hr hrpk hrcol
    rw [fu] at hu
    by_cases hpk : r.pk = pk
    · exact (fdesc r hr hrcol).2 hpk
    · rcases List.mem_append.1 hu with hu1 | hu1
      · exact huser u hu1 r ((fdesc r hr hrcol).1 hpk) hrpk hrcol
      · rw [List.mem_singleton] at hu1
        exact absurd (hrpk.trans (by rw [hu1])) hpk
  · intro hg r hr hcol
    by_cases hpk : r.pk = pk
    · exact (fdesc r hr hcol).2 hpk
    · exact hgos hg r ((fdesc r hr hcol).1 hpk) hcol

/-- Membership in the drop statement result. -/
theorem mem_local_drop_meta {m : List MetaRow} {pk : Pk} {x : MetaRow}
    (h : x ∈ local_drop_meta m pk) :
    x ∈ m ∧ ¬(x.pk = pk ∧ x.col_name ≠ CLOUDSYNC_TOMBSTONE_VALUE) := by
  unfold local_drop_meta at h
  have h1 := List.mem_filter.1 h
  refine ⟨h1.1, ?_⟩
  intro hk
  have h2 := h1.2
  simp only [decide_eq_true_eq] at h2
  exact h2 hk

/-- Dropping the column rows of a PK kills ColRowExists at that PK. -/
theorem colRowExists_drop_self {m : List MetaRow} {pk : Pk} :
    ¬ ColRowExists (local_drop_meta m pk) pk := by
  intro ⟨x, hx, hxpk, hxcol⟩
  exact (mem_local_drop_meta hx).2 ⟨hxpk, hxcol⟩

/-- Facts about the local delete-sentinel statement (sentinel upsert with
fresh col_version 2 and bump on conflict). -/
theorem local_mark_delete_meta_facts (m : List MetaRow) (pk : Pk) (dv sq : Int)
    (hnd : MetaKeysNodup m) (hge : SentinelsGeOne m) :
    MetaKeysNodup (local_mark_delete_meta m pk dv sq) ∧
    SentinelsGeOne (local_mark_delete_meta m pk dv sq) ∧
    (∀ q, ColRowExists (local_mark_delete_meta m pk dv sq) q → ColRowExists m q) ∧
    (∀ r ∈ local_mark_delete_meta m pk dv sq, r.col_name = CLOUDSYNC_TOMBSTONE_VALUE →
      r.pk ≠ pk → r ∈ m) := by
  unfold local_mark_delete_meta local_mark_insert_or_update_meta_impl
  refine ⟨metaKeysNodup_metaUpsert hnd rfl rfl (fun r _ _ => ⟨rfl, rfl⟩), ?_, ?_, ?_⟩
  · intro r hr hcol
    rcases mem_metaUpsert_elim hr with ⟨r0, hr0, hk, heq⟩ | ⟨hm, _⟩ | heq
    · have hge0 := hge r0 hr0 hk.2
      rw [heq]
      show 1 ≤ r0.col_version + 1
      omega
    · exact hge r hm hcol
    · rw [heq]
      show (1 : Int) ≤ 2
      decide
  · intro q hq
    refine colRowExists_metaUpsert_sentinel ?_ ?_ hq
    · rfl
    · intro r _ hc
      exact hc
  · intro r hr _ hne
    rcases mem_metaUpsert_elim hr with ⟨r0, _, hk, heq⟩ | ⟨hm, _⟩ | heq
    · exact absurd (by rw [heq]; exact hk.1) hne
    · exact hm
    · exact absurd (by rw [heq]) hne

/-- Inv is preserved by a local DELETE: the user-table delete followed by
the cloudsync_delete capture. -/
theorem inv_local_delete (cfg : TableCfg) (s : DBState) (pk : Pk)
    (halgo : cfg.algo = TableAlgo.cls) (hinv : Inv cfg s) :
    Inv cfg (cloudsync_delete { s with user := s.user.filter fun r => decide (r.pk ≠ pk) } pk) := by
  obtain ⟨hnd, hge, hodd, huser, _⟩ := hinv
  obtain ⟨dnd, dge, dcol, ddesc⟩ := local_mark_delete_meta_facts s.meta pk
    (db_version_next s.clock CLOUDSYNC_VALUE_NOTSET).1
    (bump_seq (db_version_next s.clock CLOUDSYNC_VALUE_NOTSET).2).1 hnd hge
  simp only [cloudsync_delete]
  refine ⟨?_, ?_, ?_, ?_, ?_⟩
  · exact metaKeysNodup_filter _ dnd
  · intro r hr hcol
    exact dge r (mem_local_drop_meta hr).1 hcol
  · intro r hr hcol hcolrow
    have hr1 := mem_local_drop_meta hr
    by_cases hpk : r.pk = pk
    · exact absurd (hpk ▸ hcolrow) colRowExists_drop_self
    · have hrm : r ∈ s.meta := ddesc r hr1.1 hcol hpk
      have hcr : ColRowExists s.meta r.pk := by
        apply dcol
        obtain ⟨x, hx, hxpk, hxcol⟩ := hcolrow
        exact ⟨x, (mem_local_drop_meta hx).1, hxpk, hxcol⟩
      exact hodd r hrm hcol hcr
  · intro u hu r hr hrpk hrcol
    have hu1 := List.mem_filter.1 hu
    have hupk : u.pk ≠ pk := by simpa using hu1.2
    have hpk : r.pk ≠ pk := by rw [hrpk]; exact hupk
    exact huser u hu1.1 r (ddesc r (mem_local_drop_meta hr).1 hrcol hpk) hrpk hrcol
  · intro hg
    rw [halgo] at hg
    cases hg

/-- Facts about the OR REPLACE primary-key move: unique keys survive, no
sentinel is touched, the moved column rows land at the new PK, and no
column row of the old PK survives. -/
theorem local_update_move_meta_facts (m : List MetaRow) (newpk oldpk : Pk) (dv : Int)
    (c : ClockState) (hnd : MetaKeysNodup m) (hne : newpk ≠ oldpk) :
    MetaKeysNodup (local_update_move_meta m newpk oldpk dv c).1 ∧
    SentinelSubset (local_update_move_meta m newpk oldpk dv c).1 m ∧
    (∀ q, ColRowExists (local_update_move_meta m newpk oldpk dv c).1 q →
      q = newpk ∨ (q ≠ oldpk ∧ ColRowExists m q)) ∧
    (∀ x ∈ (local_update_move_meta m newpk oldpk dv c).1, x.pk = oldpk →
      x.col_name = CLOUDSYNC_TOMBSTONE_VALUE) := by
  have hsrc_mem : ∀ r ∈ m.filter
      (fun r => decide (r.pk = oldpk ∧ r.col_name ≠ CLOUDSYNC_TOMBSTONE_VALUE)),
      r.pk = oldpk ∧ r.col_name ≠ CLOUDSYNC_TOMBSTONE_VALUE ∧ r ∈ m := by
    intro r hr
    have h1 := List.mem_filter.1 hr
    have h2 := h1.2
    simp only [decide_eq_true_eq] at h2
    exact ⟨h2.1, h2.2, h1.1⟩
  have hkept_mem : ∀ x ∈ m.filter (fun r => decide
      (¬(r.pk = oldpk ∧ r.col_name ≠ CLOUDSYNC_TOMBSTONE_VALUE) ∧
       ¬(r.pk = newpk ∧ r.col_name ≠ CLOUDSYNC_TOMBSTONE_VALUE ∧
          (m.filter (fun r2 => decide (r2.pk = oldpk ∧
            r2.col_name ≠ CLOUDSYNC_TOMBSTONE_VALUE))).any
            (fun q => decide (q.col_name = r.col_name))))),
      x ∈ m ∧ ¬(x.pk = oldpk ∧ x.col_name ≠ CLOUDSYNC_TOMBSTONE_VALUE) ∧
      ¬(x.pk = newpk ∧ x.col_name ≠ CLOUDSYNC_TOMBSTONE_VALUE ∧
        (m.filter (fun r2 => decide (r2.pk = oldpk ∧
          r2.col_name ≠ CLOUDSYNC_TOMBSTONE_VALUE))).any
          (fun q => decide (q.col_name = x.col_name))) := by
    intro x hx
    have h1 := List.mem_filter.1 hx
    have h2 := h1.2
    simp only [decide_eq_true_eq] at h2
    exact ⟨h1.1, h2.1, h2.2⟩
  unfold local_update_move_meta
  dsimp only
  refine ⟨?_, ?_, ?_, ?_⟩
  · rw [MetaKeysNodup, List.pairwise_append]
    refine ⟨metaKeysNodup_filter _ hnd, ?_, ?_⟩
    · refine metaKeysNodup_moveRows newpk dv _ ?_ c.seq
      refine List.Pairwise.imp_of_mem ?_ (metaKeysNodup_filter _ hnd)
      intro a b ha hb hab hcoleq
      exact hab ⟨(hsrc_mem a ha).1.trans (hsrc_mem b hb).1.symm, hcoleq⟩
    · intro a ha b hb hk
      obtain ⟨hbpk, r, hr, hbcol, _⟩ := moveRows_keys hb
      obtain ⟨ha1, ha2, ha3⟩ := hkept_mem a ha
      by_cases hac : a.col_name = CLOUDSYNC_TOMBSTONE_VALUE
      · exact (hsrc_mem r hr).2.1 (by rw [← hbcol, ← hk.2, hac])
      · exact ha3 ⟨hk.1.trans hbpk, hac,
          List.any_eq_true.2 ⟨r, hr, by simp only [decide_eq_true_eq]; rw [hbcol] at hk; exact hk.2.symm⟩⟩
  · intro x hx hxcol
    rcases List.mem_append.1 hx with h1 | h1
    · exact (hkept_mem x h1).1
    · obtain ⟨_, r, hr, hcname, _⟩ := moveRows_keys h1
      exact absurd (by rw [← hcname]; exact hxcol) (hsrc_mem r hr).2.1
  · intro q hq
    obtain ⟨x, hx, hxpk, hxcol⟩ := hq
    rcases List.mem_append.1 hx with h1 | h1
    · obtain ⟨hm, hnold, _⟩ := hkept_mem x h1
      refine Or.inr ⟨?_, x, hm, hxpk, hxcol⟩
      intro hqe
      exact hnold ⟨hxpk.trans hqe, hxcol⟩
    · exact Or.inl (hxpk.symm.trans (moveRows_keys h1).1)
  · intro x hx hxpk
    rcases List.mem_append.1 hx with h1 | h1
    · by_contra hc
      exact (hkept_mem x h1).2.1 ⟨hxpk, hc⟩
    · exact absurd ((moveRows_keys h1).1.symm.trans hxpk) hne

/-- Facts about the whole PK-change meta pipeline of cloudsync_update:
delete sentinel at the old PK, move the column rows, insert the sentinel at
the new PK. -/
theorem update_move_pipeline_facts (m : List MetaRow) (newpk oldpk : Pk)
    (dv sq : Int) (c : ClockState) (sq2 : Int)
    (hnd : MetaKeysNodup m) (hge : SentinelsGeOne m) (hne : newpk ≠ oldpk) :
    MetaKeysNodup (local_mark_insert_sentinel_meta
      ((local_update_move_meta (local_mark_delete_meta m oldpk dv sq) newpk oldpk dv c).1)
      newpk dv sq2) ∧
    SentinelsGeOne (local_mark_insert_sentinel_meta
      ((local_update_move_meta (local_mark_delete_meta m oldpk dv sq) newpk oldpk dv c).1)
      newpk dv sq2) ∧
    (∀ r ∈ local_mark_insert_sentinel_meta
      ((local_update_move_meta (local_mark_delete_meta m oldpk dv sq) newpk oldpk dv c).1)
      newpk dv sq2, r.col_name = CLOUDSYNC_TOMBSTONE_VALUE →
      (r.pk = newpk → r.col_version % 2 = 1) ∧
      (r.pk ≠ newpk → r.pk ≠ oldpk → r ∈ m)) ∧
    ¬ ColRowExists (local_mark_insert_sentinel_meta
      ((local_update_move_meta (local_mark_delete_meta m oldpk dv sq) newpk oldpk dv c).1)
      newpk dv sq2) oldpk ∧
    (∀ q, ColRowExists (local_mark_insert_sentinel_meta
      ((local_update_move_meta (local_mark_delete_meta m oldpk dv sq) newpk oldpk dv c).1)
      newpk dv sq2) q → q = newpk ∨ ColRowExists m q) := by
  obtain ⟨dnd, dge, dcol, ddesc⟩ := local_mark_delete_meta_facts m oldpk dv sq hnd hge
  obtain ⟨mnd, msub, mcol, mold⟩ :=
    local_update_move_meta_facts (local_mark_delete_meta m oldpk dv sq) newpk oldpk dv c dnd hne
  have mge := sentinelsGeOne_of_subset msub dge
  obtain ⟨snd, sge, scol, sdesc⟩ := local_mark_insert_sentinel_meta_facts
    ((local_update_move_meta (local_mark_delete_meta m oldpk dv sq) newpk oldpk dv c).1)
    newpk dv sq2 mnd mge
  refine ⟨snd, sge, ?_, ?_, ?_⟩
  · intro r hr hcol
    refine ⟨(sdesc r hr hcol).2, ?_⟩
    intro hnew hnold
    have hr2 := (sdesc r hr hcol).1 hnew
    have hr1 := msub r hr2 hcol
    exact ddesc r hr1 hcol hnold
  · intro hc
    rcases mcol oldpk (scol oldpk hc) with h | h
    · exact hne h.symm
    · exact h.1 rfl
  · intro q hq
    rcases mcol q (scol q hq) with h | h
    · exact Or.inl h
    · exact Or.inr (dcol q h.2)

/-- A successful findIdx? means some element satisfies the predicate. -/
theorem findIdx_some_mem {α : Type _} {l : List α} {p : α → Bool} {i : Nat}
    (h : l.findIdx? p = some i) : ∃ c ∈ l, p c = true := by
  by_contra hc
  push_neg at hc
  have hn : l.findIdx? p = none :=
    List.findIdx?_eq_none_iff.2 (fun x hx => by simpa using hc x hx)
  rw [hn] at h
  cases h

/-- The local causal length is never negative: it is a sentinel col_version
(at least 1), or 1, or 0. -/
theorem local_cl_nonneg (m : List MetaRow) (pk : Pk) (hge : SentinelsGeOne m) :
    0 ≤ merge_get_local_cl m pk := by
  unfold merge_get_local_cl
  cases hf : metaFind m pk CLOUDSYNC_TOMBSTONE_VALUE with
  | some r =>
    have hr : r ∈ m := List.mem_of_find?_eq_some hf
    have hcol : r.col_name = CLOUDSYNC_TOMBSTONE_VALUE := by
      have h2 := List.find?_some hf
      simp only [decide_eq_true_eq] at h2
      exact h2.2
    have h3 := hge r hr hcol
    show 0 ≤ r.col_version
    omega
  | none =>
    show 0 ≤ if (m.any fun r => decide (r.pk = pk)) = true then (1 : Int) else 0
    split <;> decide

/-- merge_zeroclock_on_resurrect keeps key uniqueness, touches no sentinel
row and creates no column row. -/
theorem zeroclock_meta_facts (s : DBState) (dv : Int) (pk : Pk)
    (hnd : MetaKeysNodup s.meta) :
    MetaKeysNodup (merge_zeroclock_on_resurrect s dv pk).meta ∧
    SentinelSubset (merge_zeroclock_on_resurrect s dv pk).meta s.meta ∧
    (∀ q, ColRowExists (merge_zeroclock_on_resurrect s dv pk).meta q →
      ColRowExists s.meta q) := by
  unfold merge_zeroclock_on_resurrect
  by_cases hany :
      (s.meta.any fun r => decide (r.pk = pk ∧ r.col_name ≠ CLOUDSYNC_TOMBSTONE_VALUE)) = true
  · rw [if_pos hany]
    dsimp only
    refine ⟨metaKeysNodup_map_ite
        (fun r => r.pk = pk ∧ r.col_name ≠ CLOUDSYNC_TOMBSTONE_VALUE) _
        (fun r _ => ⟨rfl, rfl⟩) hnd,
      sentinelSubset_map_ite_nonsentinel
        (fun r => r.pk = pk ∧ r.col_name ≠ CLOUDSYNC_TOMBSTONE_VALUE) _
        (fun r _ => rfl) (fun r hp => hp.2), ?_⟩
    intro q hq
    refine (colRowExists_map_ite
      (fun r => r.pk = pk ∧ r.col_name ≠ CLOUDSYNC_TOMBSTONE_VALUE) _ ?_ q).1 hq
    intro r _
    exact ⟨rfl, rfl⟩
  · rw [if_neg hany]
    exact ⟨hnd, sentinelSubset_refl _, fun q hq => hq⟩

/-- merge_set_winner_clock on a proper column name: key uniqueness
preserved, sentinels untouched, every new column row sits at the written
PK. -/
theorem winner_clock_col_facts (s : DBState) (pk : Pk) (col : ColName)
    (cv dv : Int) (site : SiteBlob) (sq : Int)
    (hcol : col ≠ CLOUDSYNC_TOMBSTONE_VALUE) (hnd : MetaKeysNodup s.meta) :
    MetaKeysNodup (merge_set_winner_clock s pk (some col) cv dv site sq).meta ∧
    SentinelSubset (merge_set_winner_clock s pk (some col) cv dv site sq).meta s.meta ∧
    (∀ q, ColRowExists (merge_set_winner_clock s pk (some col) cv dv site sq).meta q →
      ColRowExists s.meta q ∨ q = pk) := by
  refine ⟨metaKeysNodup_metaUpsert hnd rfl rfl
      (fun r hpk hcol2 => ⟨hpk.symm, hcol2.symm⟩), ?_, ?_⟩
  · exact sentinelSubset_metaUpsert_col hcol rfl (fun r _ hcol2 => hcol2.symm)
  · intro q hq
    refine colRowExists_metaUpsert_elim ?_ ?_ ?_ hq
    · rfl
    · rfl
    · intro r hpk hcol2
      exact ⟨hpk.symm, hcol2.symm⟩

/-- A successful merge_insert_col: the column is registered (and so is not
the sentinel name on a wellformed table), the meta table keeps unique keys,
sentinels are untouched, new column rows sit at the change PK, and the only
user row it may create or rewrite is the one at the change PK. -/
theorem merge_insert_col_facts (cfg : TableCfg) (s : DBState) (pk : Pk) (col : ColName)
    (v : SQLiteValue) (cv dv : Int) (site : SiteBlob) (sq : Int) (s2 : DBState)
    (hwf : CfgWF cfg) (hnd : MetaKeysNodup s.meta)
    (hok : merge_insert_col cfg s pk col v cv dv site sq = .ok s2) :
    col ∈ cfg.cols ∧ col ≠ CLOUDSYNC_TOMBSTONE_VALUE ∧
    MetaKeysNodup s2.meta ∧
    SentinelSubset s2.meta s.meta ∧
    (∀ q, ColRowExists s2.meta q → ColRowExists s.meta q ∨ q = pk) ∧
    (∀ u ∈ s2.user, u.pk = pk ∨ u ∈ s.user) := by
  unfold merge_insert_col at hok
  cases hidx : cfg.cols.findIdx? (fun c => decide (c = col)) with
  | none =>
    rw [hidx] at hok
    exact Except.noConfusion hok
  | some i =>
    rw [hidx] at hok
    obtain rfl := Except.ok.inj hok
    have hmem : col ∈ cfg.cols := by
      obtain ⟨c, hc, hpc⟩ := findIdx_some_mem hidx
      simp only [decide_eq_true_eq] at hpc
      exact hpc ▸ hc
    have hcolne : col ≠ CLOUDSYNC_TOMBSTONE_VALUE := fun h => hwf (h ▸ hmem)
    obtain ⟨wnd, wsub, wcol⟩ := winner_clock_col_facts _ pk col cv dv site sq hcolne hnd
    refine ⟨hmem, hcolne, wnd, wsub, wcol, ?_⟩
    rw [winner_clock_user]
    intro u hu
    cases hf : userFind s.user pk with
    | some u0 =>
      rw [hf] at hu
      have hu2 : u ∈ s.user.map
          (fun r => if r.pk = pk then { r with vals := r.vals.set i v } else r) := hu
      rw [List.mem_map] at hu2
      obtain ⟨r, hr, heq⟩ := hu2
      by_cases hrp : r.pk = pk
      · left
        rw [← heq, if_pos hrp]
        exact hrp
      · right
        rw [← heq, if_neg hrp]
        exact hr
    | none =>
      rw [hf] at hu
      have hu2 : u ∈ s.user ++
          [⟨pk, (List.replicate cfg.cols.length SQLiteValue.null).set i v⟩] := hu
      rcases List.mem_append.1 hu2 with h | h
      · exact Or.inr h
      · left
        rw [List.mem_singleton] at h
        rw [h]

/-- merge_delete: key uniqueness and sentinel lower bounds carry over, the
PK ends with no column rows and no user row, other PKs keep their column
rows and sentinels. -/
theorem merge_delete_facts (s : DBState) (pk : Pk) (cn : Option ColName)
    (cv dv : Int) (site : SiteBlob) (sq : Int)
    (hnd : MetaKeysNodup s.meta) (hge : SentinelsGeOne s.meta)
    (hcv : cn.getD CLOUDSYNC_TOMBSTONE_VALUE = CLOUDSYNC_TOMBSTONE_VALUE → 1 ≤ cv) :
    MetaKeysNodup (merge_delete s pk cn cv dv site sq).meta ∧
    SentinelsGeOne (merge_delete s pk cn cv dv site sq).meta ∧
    ¬ ColRowExists (merge_delete s pk cn cv dv site sq).meta pk ∧
    (∀ q, ColRowExists (merge_delete s pk cn cv dv site sq).meta q →
      ColRowExists s.meta q ∨ q = pk) ∧
    (∀ r ∈ (merge_delete s pk cn cv dv site sq).meta,
      r.col_name = CLOUDSYNC_TOMBSTONE_VALUE → r.pk ≠ pk → r ∈ s.meta) ∧
    (∀ u ∈ (merge_delete s pk cn cv dv site sq).user, u ∈ s.user ∧ u.pk ≠ pk) := by
  refine ⟨?_, ?_, ?_, ?_, ?_, ?_⟩
  · exact metaKeysNodup_filter _ (metaKeysNodup_metaUpsert hnd rfl rfl
      (fun r hpk hcol2 => ⟨hpk.symm, hcol2.symm⟩))
  · intro r hr hcol
    have hr1 := (mem_local_drop_meta hr).1
    rcases mem_metaUpsert_elim hr1 with ⟨r0, hr0, hk, heq⟩ | ⟨hm, _⟩ | heq
    · rw [heq] at hcol ⊢
      exact hcv hcol
    · exact hge r hm hcol
    · rw [heq] at hcol ⊢
      exact hcv hcol
  · exact colRowExists_drop_self
  · intro q hq
    refine colRowExists_metaUpsert_elim ?_ ?_ ?_ (colRowExists_filter hq)
    · rfl
    · rfl
    · intro r hpk hcol2
      exact ⟨hpk.symm, hcol2.symm⟩
  · intro r hr hcol hne
    have hr1 := (mem_local_drop_meta hr).1
    rcases mem_metaUpsert_elim hr1 with ⟨r0, hr0, hk, heq⟩ | ⟨hm, _⟩ | heq
    · exact absurd (show r.pk = pk by rw [heq]) hne
    · exact hm
    · exact absurd (show r.pk = pk by rw [heq]) hne
  · intro u hu
    have h1 := List.mem_filter.1 hu
    refine ⟨h1.1, ?_⟩
    have h2 := h1.2
    simpa using h2

/-- merge_sentinel_only_insert at causal length at least 1: key uniqueness
and sentinel lower bounds carry over, sentinels of other PKs are untouched,
the sentinel of the PK carries exactly the supplied cl, no column row is
created, and the only user row it may create is the one at the PK. -/
theorem merge_sentinel_only_facts (cfg : TableCfg) (s : DBState) (pk : Pk)
    (cl dv : Int) (site : SiteBlob) (sq : Int)
    (hnd : MetaKeysNodup s.meta) (hge : SentinelsGeOne s.meta) (hcl : 1 ≤ cl) :
    MetaKeysNodup (merge_sentinel_only_insert cfg s pk cl dv site sq).meta ∧
    SentinelsGeOne (merge_sentinel_only_insert cfg s pk cl dv site sq).meta ∧
    (∀ r ∈ (merge_sentinel_only_insert cfg s pk cl dv site sq).meta,
      r.col_name = CLOUDSYNC_TOMBSTONE_VALUE → r.pk ≠ pk → r ∈ s.meta) ∧
    (∀ r ∈ (merge_sentinel_only_insert cfg s pk cl dv site sq).meta,
      r.col_name = CLOUDSYNC_TOMBSTONE_VALUE → r.pk = pk → r.col_version = cl) ∧
    (∀ q, ColRowExists (merge_sentinel_only_insert cfg s pk cl dv site sq).meta q →
      ColRowExists s.meta q) ∧
    (∀ u ∈ (merge_sentinel_only_insert cfg s pk cl dv site sq).user,
      u.pk = pk ∨ u ∈ s.user) := by
  obtain ⟨znd, zsub, zcol⟩ := zeroclock_meta_facts
    { s with user := match userFind s.user pk with
        | some _ => s.user
        | none => s.user ++ [⟨pk, List.replicate cfg.cols.length SQLiteValue.null⟩] }
    dv pk hnd
  refine ⟨?_, ?_, ?_, ?_, ?_, ?_⟩
  · exact metaKeysNodup_metaUpsert znd rfl rfl
      (fun r hpk hcol2 => ⟨hpk.symm, hcol2.symm⟩)
  · intro r hr hcol
    rcases mem_metaUpsert_elim hr with ⟨r0, hr0, hk, heq⟩ | ⟨hm, _⟩ | heq
    · rw [heq]
      show 1 ≤ cl
      exact hcl
    · exact hge r (zsub r hm hcol) hcol
    · rw [heq]
      show 1 ≤ cl
      exact hcl
  · intro r hr hcol hne
    rcases mem_metaUpsert_elim hr with ⟨r0, hr0, hk, heq⟩ | ⟨hm, _⟩ | heq
    · exact absurd (show r.pk = pk by rw [heq]) hne
    · exact zsub r hm hcol
    · exact absurd (show r.pk = pk by rw [heq]) hne
  · intro r hr hcol hpk
    exact winner_clock_sentinel_all _ pk cl dv site sq r hr hpk hcol
  · intro q hq
    exact zcol q (colRowExists_metaUpsert_sentinel rfl (fun r _ _ => rfl) hq)
  · intro u hu
    unfold merge_sentinel_only_insert at hu
    rw [winner_clock_user, zeroclock_user] at hu
    cases hf : userFind s.user pk with
    | some u0 =>
      rw [hf] at hu
      exact Or.inr hu
    | none =>
      rw [hf] at hu
      rcases List.mem_append.1 hu with h | h
      · exact Or.inr h
      · left
        rw [List.mem_singleton] at h
        rw [h]

/-- The CLS column-write phase preserves the meta-table invariants whenever
every sentinel of the change PK in the pre-state is odd. -/
theorem column_phase_inv (cfg : TableCfg) (t s2 : DBState) (ch : Change)
    (nr re : Bool)
    (hwf : CfgWF cfg)
    (hok : merge_column_phase cfg t ch nr re = .ok s2)
    (hnd : MetaKeysNodup t.meta) (hge : SentinelsGeOne t.meta)
    (hsentpk : ∀ r ∈ t.meta, r.col_name = CLOUDSYNC_TOMBSTONE_VALUE → r.pk = ch.pk →
      r.col_version % 2 = 1)
    (hodd : SentinelsOddForColRows t.meta)
    (huser : UserSentinelsOdd t) :
    MetaKeysNodup s2.meta ∧ SentinelsGeOne s2.meta ∧ SentinelsOddForColRows s2.meta ∧
    UserSentinelsOdd s2 := by
  unfold merge_column_phase at hok
  cases hw : merge_did_cid_win cfg t ch.pk ch.col_value (changeName ch) ch.col_version with
  | error e =>
    rw [hw] at hok
    exact Except.noConfusion hok
  | ok flag =>
    rw [hw] at hok
    dsimp only at hok
    by_cases hc : (nr || !re || flag) = true
    · rw [if_pos hc] at hok
      obtain ⟨hmem, hcolne, wnd, wsub, wcolel, wuser⟩ := merge_insert_col_facts cfg t ch.pk
        (changeName ch) ch.col_value ch.col_version ch.db_version ch.site_id ch.seq s2
        hwf hnd hok
      refine ⟨wnd, sentinelsGeOne_of_subset wsub hge, ?_, ?_⟩
      · intro r hr hcol hcolrow
        have hrt := wsub r hr hcol
        by_cases hpk : r.pk = ch.pk
        · exact hsentpk r hrt hcol hpk
        · rcases wcolel r.pk hcolrow with h | h
          · exact hodd r hrt hcol h
          · exact absurd h hpk
      · intro u hu r hr hrpk hrcol
        have hrt := wsub r hr hrcol
        rcases wuser u hu with hup | humem
        · exact hsentpk r hrt hrcol (hrpk.trans hup)
        · exact huser u humem r hrt hrpk hrcol
    · rw [if_neg hc] at hok
      obtain rfl := Except.ok.inj hok
      exact ⟨hnd, hge, hodd, huser⟩

/-- Inv is preserved by a successful merge of a wellformed change. -/
theorem inv_merge (cfg : TableCfg) (hwf : CfgWF cfg) (s s2 : DBState) (ch : Change)
    (hwfc : WellFormedChange ch)
    (hok : cloudsync_merge_insert cfg s ch = .ok s2)
    (hinv : Inv cfg s) : Inv cfg s2 := by
  obtain ⟨hnd, hge, hodd, huser, hgos⟩ := hinv
  unfold cloudsync_merge_insert at hok
  by_cases halgo : cfg.algo = TableAlgo.gos
  · rw [if_pos halgo] at hok
    unfold cloudsync_merge_insert_gos at hok
    have hall := hgos halgo
    obtain ⟨hmem, hcolne, wnd, wsub, wcolel, wuser⟩ := merge_insert_col_facts cfg s ch.pk
      (changeName ch) ch.col_value ch.col_version ch.db_version ch.site_id ch.seq s2
      hwf hnd hok
    refine ⟨wnd, sentinelsGeOne_of_subset wsub hge, ?_, ?_, fun _ => ?_⟩
    · intro r hr hcol _
      exact hall r (wsub r hr hcol) hcol
    · intro u hu r hr hrpk hrcol
      exact hall r (wsub r hr hrcol) hrcol
    · intro r hr hcol
      exact hall r (wsub r hr hcol) hcol
  · rw [if_neg halgo] at hok
    dsimp only at hok
    have hlc0 : 0 ≤ merge_get_local_cl s.meta ch.pk := local_cl_nonneg s.meta ch.pk hge
    by_cases h1 : ch.cl < merge_get_local_cl s.meta ch.pk
    · rw [if_pos h1] at hok
      obtain rfl := Except.ok.inj hok
      exact ⟨hnd, hge, hodd, huser, hgos⟩
    · rw [if_neg h1] at hok
      by_cases h2 : ch.cl % 2 = 0
      · rw [if_pos h2] at hok
        by_cases h3 : merge_get_local_cl s.meta ch.pk = ch.cl
        · rw [if_pos h3] at hok
          obtain rfl := Except.ok.inj hok
          exact ⟨hnd, hge, hodd, huser, hgos⟩
        · rw [if_neg h3] at hok
          obtain rfl := Except.ok.inj hok
          obtain ⟨dnd, dge, dnocol, dcolel, dsent, duser⟩ := merge_delete_facts s ch.pk
            (some (changeName ch)) ch.col_version ch.db_version ch.site_id ch.seq hnd hge
            (by
              intro hname
              rw [Option.getD_some] at hname
              rw [hwfc hname]
              omega)
          refine ⟨dnd, dge, ?_, ?_, fun hg => absurd hg halgo⟩
          · intro r hr hcol hcolrow
            by_cases hpk : r.pk = ch.pk
            · exact absurd (hpk ▸ hcolrow) dnocol
            · rcases dcolel r.pk hcolrow with h | h
              · exact hodd r (dsent r hr hcol hpk) hcol h
              · exact absurd h hpk
          · intro u hu r hr hrpk hrcol
            obtain ⟨humem, hune⟩ := duser u hu
            have hrne : r.pk ≠ ch.pk := by
              rw [hrpk]
              exact hune
            exact huser u humem r (dsent r hr hrcol hrne) hrpk hrcol
      · rw [if_neg h2] at hok
        have hclodd : ch.cl % 2 = 1 := by omega
        by_cases h4 : changeName ch = CLOUDSYNC_TOMBSTONE_VALUE
        · rw [if_pos h4] at hok
          by_cases h5 : merge_get_local_cl s.meta ch.pk = ch.cl
          · rw [if_pos h5] at hok
            obtain rfl := Except.ok.inj hok
            exact ⟨hnd, hge, hodd, huser, hgos⟩
          · rw [if_neg h5] at hok
            obtain rfl := Except.ok.inj hok
            have hcv : ch.col_version = ch.cl := hwfc h4
            obtain ⟨snd, sge, ssent, ssentpk, scol, suser⟩ := merge_sentinel_only_facts cfg s
              ch.pk ch.col_version ch.db_version ch.site_id ch.seq hnd hge (by omega)
            refine ⟨snd, sge, ?_, ?_, fun hg => absurd hg halgo⟩
            · intro r hr hcol hcolrow
              by_cases hpk : r.pk = ch.pk
              · rw [ssentpk r hr hcol hpk, hcv]
                exact hclodd
              · exact hodd r (ssent r hr hcol hpk) hcol (scol r.pk hcolrow)
            · intro u hu r hr hrpk hrcol
              rcases suser u hu with hup | humem
              · rw [ssentpk r hr hrcol (hrpk.trans hup), hcv]
                exact hclodd
              · by_cases hpk : r.pk = ch.pk
                · rw [ssentpk r hr hrcol hpk, hcv]
                  exact hclodd
                · exact huser u humem r (ssent r hr hrcol hpk) hrpk hrcol
        · rw [if_neg h4] at hok
          by_cases hres : (decide (ch.cl > merge_get_local_cl s.meta ch.pk ∧ ch.cl % 2 = 1) &&
              (decide (merge_get_local_cl s.meta ch.pk ≠ 0) ||
                (!decide (merge_get_local_cl s.meta ch.pk ≠ 0) && decide (ch.cl > 1)))) = true
          · rw [if_pos hres] at hok
            rw [Bool.and_eq_true] at hres
            have ha := hres.1
            rw [decide_eq_true_eq] at ha
            have hcl1 : 1 ≤ ch.cl := by omega
            obtain ⟨snd, sge, ssent, ssentpk, scol, suser⟩ := merge_sentinel_only_facts cfg s
              ch.pk ch.cl ch.db_version ch.site_id ch.seq hnd hge hcl1
            have hsentpkt : ∀ r ∈ (merge_sentinel_only_insert cfg s ch.pk ch.cl ch.db_version
                ch.site_id ch.seq).meta, r.col_name = CLOUDSYNC_TOMBSTONE_VALUE →
                r.pk = ch.pk → r.col_version % 2 = 1 := by
              intro r hr hcol hpk
              rw [ssentpk r hr hcol hpk]
              exact hclodd
            have hoddt : SentinelsOddForColRows (merge_sentinel_only_insert cfg s ch.pk ch.cl
                ch.db_version ch.site_id ch.seq).meta := by
              intro r hr hcol hcolrow
              by_cases hpk : r.pk = ch.pk
              · exact hsentpkt r hr hcol hpk
              · exact hodd r (ssent r hr hcol hpk) hcol (scol r.pk hcolrow)
            have husert : UserSentinelsOdd (merge_sentinel_only_insert cfg s ch.pk ch.cl
                ch.db_version ch.site_id ch.seq) := by
              intro u hu r hr hrpk hrcol
              rcases suser u hu with hup | humem
              · exact hsentpkt r hr hrcol (hrpk.trans hup)
              · by_cases hpk : r.pk = ch.pk
                · exact hsentpkt r hr hrcol hpk
                · exact huser u humem r (ssent r hr hrcol hpk) hrpk hrcol
            obtain ⟨cnd, cge, codd, cuser⟩ := column_phase_inv cfg _ s2 ch _ _ hwf hok
              snd sge hsentpkt hoddt husert
            exact ⟨cnd, cge, codd, cuser, fun hg => absurd hg halgo⟩
          · rw [if_neg hres] at hok
            have hsentpk_s : ∀ r ∈ s.meta, r.col_name = CLOUDSYNC_TOMBSTONE_VALUE →
                r.pk = ch.pk → r.col_version % 2 = 1 := by
              intro r hr hcol hpk
              by_contra hev
              have hfind : metaFind s.meta ch.pk CLOUDSYNC_TOMBSTONE_VALUE = some r :=
                metaFind_of_mem_nodup hnd hr hpk hcol
              have hlc : merge_get_local_cl s.meta ch.pk = r.col_version := by
                unfold merge_get_local_cl
                rw [hfind]
              have hge1 := hge r hr hcol
              apply hres
              have hgt : ch.cl > merge_get_local_cl s.meta ch.pk := by
                rw [hlc]
                rw [hlc] at h1
                omega
              have hne0 : merge_get_local_cl s.meta ch.pk ≠ 0 := by
                rw [hlc]
                omega
              simp [hgt, hclodd, hne0]
            obtain ⟨cnd, cge, codd, cuser⟩ := column_phase_inv cfg s s2 ch _ _ hwf hok
              hnd hge hsentpk_s hodd huser
            exact ⟨cnd, cge, codd, cuser, fun hg => absurd hg halgo⟩

/-- Inv is preserved by a local UPDATE: the user-table update followed by
the cloudsync_update capture (PK change or in-place column change). -/
theorem inv_local_update (cfg : TableCfg) (hwf : CfgWF cfg) (s : DBState)
    (oldpk newpk : Pk) (oldvals newvals : List SQLiteValue)
    (halgo : cfg.algo = TableAlgo.cls)
    (hold : userFind s.user oldpk = some ⟨oldpk, oldvals⟩)
    (hinv : Inv cfg s) :
    Inv cfg (cloudsync_update cfg { s with user := userUpdate s.user oldpk newpk newvals }
      newpk oldpk newvals oldvals) := by
  obtain ⟨hnd, hge, hodd, huser, _⟩ := hinv
  have holdmem : (⟨oldpk, oldvals⟩ : UserRow) ∈ s.user := List.mem_of_find?_eq_some hold
  have huser_mem : ∀ u ∈ userUpdate s.user oldpk newpk newvals,
      u.pk = newpk ∨ (u ∈ s.user ∧ u.pk ≠ oldpk) := by
    intro u hu
    unfold userUpdate at hu
    rw [List.mem_map] at hu
    obtain ⟨r, hr, heq⟩ := hu
    by_cases hrp : r.pk = oldpk
    · rw [if_pos hrp] at heq
      exact Or.inl (by rw [← heq])
    · rw [if_neg hrp] at heq
      exact Or.inr ⟨heq ▸ hr, heq ▸ hrp⟩
  have key : ∀ (dv : Int) (m0 : List MetaRow) (c0 : ClockState) (D : MetaRow → Prop),
      MetaKeysNodup m0 →
      SentinelsGeOne m0 →
      (∀ r ∈ m0, r.col_name = CLOUDSYNC_TOMBSTONE_VALUE → D r) →
      (fun st : DBState =>
        (∀ u ∈ st.user, u.pk = newpk ∨ (u ∈ s.user ∧ u.pk ≠ oldpk)) ∧ MetaKeysNodup st.meta ∧
        SentinelsGeOne st.meta ∧
        (∀ q, ColRowExists st.meta q → ColRowExists m0 q ∨ q = newpk) ∧
        (∀ r ∈ st.meta, r.col_name = CLOUDSYNC_TOMBSTONE_VALUE → D r))
      ((cfg.cols.zip (newvals.zip oldvals)).foldl (fun acc p =>
        if dbutils_value_compare (some p.2.1) (some p.2.2) ≠ 0 then
          let sqClock := bump_seq acc.clock
          { acc with meta := local_mark_insert_or_update_meta acc.meta newpk p.1 dv sqClock.1,
                     clock := sqClock.2 }
        else acc)
        (⟨userUpdate s.user oldpk newpk newvals, m0, c0, s.sites⟩ : DBState)) := by
    intro dv m0 c0 D h2 h3 h4
    refine foldl_invariant _
      (fun st : DBState =>
        (∀ u ∈ st.user, u.pk = newpk ∨ (u ∈ s.user ∧ u.pk ≠ oldpk)) ∧ MetaKeysNodup st.meta ∧
        SentinelsGeOne st.meta ∧
        (∀ q, ColRowExists st.meta q → ColRowExists m0 q ∨ q = newpk) ∧
        (∀ r ∈ st.meta, r.col_name = CLOUDSYNC_TOMBSTONE_VALUE → D r))
      (cfg.cols.zip (newvals.zip oldvals)) ?_
      (⟨userUpdate s.user oldpk newpk newvals, m0, c0, s.sites⟩ : DBState)
      ⟨fun u hu => huser_mem u hu, h2, h3, fun q hq => Or.inl hq, h4⟩
    intro x hx p hp
    obtain ⟨hx1, hx2, hx3, hx4, hx5⟩ := hx
    have hpcols : p.1 ∈ cfg.cols := (List.of_mem_zip hp).1
    have hcolne : p.1 ≠ CLOUDSYNC_TOMBSTONE_VALUE := fun hh => hwf (hh ▸ hpcols)
    by_cases hcmp : dbutils_value_compare (some p.2.1) (some p.2.2) ≠ 0
    · rw [if_pos hcmp]
      have hsub : SentinelSubset
          (local_mark_insert_or_update_meta x.meta newpk p.1 dv (bump_seq x.clock).1) x.meta := by
        unfold local_mark_insert_or_update_meta local_mark_insert_or_update_meta_impl
        refine sentinelSubset_metaUpsert_col hcolne rfl ?_
        intro r _ _
        rfl
      dsimp only
      refine ⟨hx1, ?_, sentinelsGeOne_of_subset hsub hx3, ?_, ?_⟩
      · unfold local_mark_insert_or_update_meta local_mark_insert_or_update_meta_impl
        exact metaKeysNodup_metaUpsert hx2 rfl rfl (fun r _ _ => ⟨rfl, rfl⟩)
      · intro q hq
        have helim : ColRowExists x.meta q ∨ q = newpk := by
          unfold local_mark_insert_or_update_meta local_mark_insert_or_update_meta_impl at hq
          refine colRowExists_metaUpsert_elim ?_ ?_ ?_ hq
          · rfl
          · rfl
          · intro r _ _
            exact ⟨rfl, rfl⟩
        rcases helim with h | h
        · exact hx4 q h
        · exact Or.inr h
      · intro r hr hcol2
        exact hx5 r (hsub r hr hcol2) hcol2
    · rw [if_neg hcmp]
      exact ⟨hx1, hx2, hx3, hx4, hx5⟩
  simp only [cloudsync_update]
  by_cases hpc : newpk ≠ oldpk
  · rw [if_pos hpc]
    obtain ⟨pnd, pge, pdesc, pnocol, pcol⟩ :=
      update_move_pipeline_facts s.meta newpk oldpk _ _ _ _ hnd hge hpc
    obtain ⟨fu, fnd, fge, fcol, fD⟩ := key _ _ _
      (fun r => (r.pk = newpk → r.col_version % 2 = 1) ∧
        (r.pk ≠ newpk → r.pk ≠ oldpk → r ∈ s.meta))
      pnd pge pdesc
    refine ⟨fnd, fge, ?_, ?_, ?_⟩
    · intro r hr hcol hcolrow
      by_cases hpk : r.pk = newpk
      · exact (fD r hr hcol).1 hpk
      · by_cases hpko : r.pk = oldpk
        · rcases fcol r.pk hcolrow with h | h
          · exact absurd (hpko ▸ h) pnocol
          · exact absurd h hpk
        · have hrm : r ∈ s.meta := (fD r hr hcol).2 hpk hpko
          rcases fcol r.pk hcolrow with h | h
          · rcases pcol r.pk h with h2 | h2
            · exact absurd h2 hpk
            · exact hodd r hrm hcol h2
          · exact absurd h hpk
    · intro u hu r hr hrpk hrcol
      rcases fu u hu with hup | ⟨humem, hune⟩
      · exact (fD r hr hrcol).1 (hrpk.trans hup)
      · by_cases hpk : r.pk = newpk
        · exact (fD r hr hrcol).1 hpk
        · have hpko : r.pk ≠ oldpk := by rw [hrpk]; exact hune
          exact huser u humem r ((fD r hr hrcol).2 hpk hpko) hrpk hrcol
    · intro hg
      rw [halgo] at hg
      cases hg
  · rw [if_neg hpc]
    obtain ⟨fu, fnd, fge, fcol, fD⟩ := key _ _ _
      (fun r => r ∈ s.meta) hnd hge (fun r hr _ => hr)
    have hnewold : newpk = oldpk := by
      by_contra hc
      exact hpc hc
    refine ⟨fnd, fge, ?_, ?_, ?_⟩
    · intro r hr hcol hcolrow
      have hrm : r ∈ s.meta := fD r hr hcol
      rcases fcol r.pk hcolrow with h | h
      · exact hodd r hrm hcol h
      · exact huser ⟨oldpk, oldvals⟩ holdmem r hrm (by rw [h, hnewold]) hcol
    · intro u hu r hr hrpk hrcol
      have hrm : r ∈ s.meta := fD r hr hrcol
      rcases fu u hu with hup | ⟨humem, _⟩
      · exact huser ⟨oldpk, oldvals⟩ holdmem r hrm (by rw [hrpk, hup, hnewold]) hrcol
      · exact huser u humem r hrm hrpk hrcol
    · intro hg
      rw [halgo] at hg
      cases hg

/-- Inv holds in the freshly initialised state: all tables are empty. -/
theorem inv_init (cfg : TableCfg) : Inv cfg initialState :=
  ⟨List.Pairwise.nil, fun r hr => (List.not_mem_nil r hr).elim,
    fun r hr => (List.not_mem_nil r hr).elim,
    fun u hu => (List.not_mem_nil u hu).elim,
    fun _ r hr => (List.not_mem_nil r hr).elim⟩

/-- The inductive invariant holds in every reachable state of a wellformed
table. -/
theorem reachable_inv (cfg : TableCfg) (hwf : CfgWF cfg) (s : DBState)
    (h : Reachable cfg s) : Inv cfg s := by
  unfold Reachable at h
  induction h with
  | refl => exact inv_init cfg
  | tail hab hstep ih =>
    cases hstep with
    | local_insert pk vals hfresh hlen =>
      exact inv_local_insert cfg hwf _ pk vals ih
    | local_update oldpk newpk oldvals newvals halgo hold htarget hlen =>
      exact inv_local_update cfg hwf _ oldpk newpk oldvals newvals halgo hold ih
    | local_delete pk row halgo hold =>
      exact inv_local_delete cfg _ pk halgo ih
    | merge =>
      rename_i ch hwfc hok
      exact inv_merge cfg hwf _ _ ch hwfc hok ih

/-- C1 counterexample: after a plain INSERT of the fresh PK 7 into a CLS
table with one non-PK column — a reachable state — the PK has a column row
in the meta table but no sentinel row at all, so the sentinel-exists part
of the stated invariant fails. -/
theorem c1_fresh_insert_no_sentinel :
    Reachable c1_cfg c1_state ∧
    ColRowExists c1_state.meta 7 ∧
    ¬ ∃ r ∈ c1_state.meta, r.pk = 7 ∧ r.col_name = CLOUDSYNC_TOMBSTONE_VALUE := by
  refine ⟨Relation.ReflTransGen.single
    (Step.local_insert initialState 7 [SQLiteValue.integer 20] (by decide) (by decide)),
    ?_, ?_⟩
  · decide
  · decide

/-- C1 (amended): in every reachable state of a wellformed table, every
sentinel row whose PK has a column row carries an odd col_version — but the
sentinel row itself may be missing (a fresh INSERT writes only column
rows), in which case the local-causal-length query falls back to 1 for a PK
that has any meta row. -/
theorem c1_sentinel_odd_when_present (cfg : TableCfg) (hwf : CfgWF cfg) (s : DBState)
    (hreach : Reachable cfg s) :
    (∀ r ∈ s.meta, r.col_name = CLOUDSYNC_TOMBSTONE_VALUE → ColRowExists s.meta r.pk →
      r.col_version % 2 = 1) ∧
    (∀ pk, metaFind s.meta pk CLOUDSYNC_TOMBSTONE_VALUE = none →
      (s.meta.any fun r => decide (r.pk = pk)) = true →
      merge_get_local_cl s.meta pk = 1) := by
  refine ⟨(reachable_inv cfg hwf s hreach).2.2.1, ?_⟩
  intro pk hnone hany
  unfold merge_get_local_cl
  rw [hnone, if_pos hany]

/-- C1 witness: the amended invariant evaluated on the reachable state
c1_state (one fresh insert of PK 7). -/
theorem c1_sentinel_odd_when_present_witness :
    (∀ r ∈ c1_state.meta, r.col_name = CLOUDSYNC_TOMBSTONE_VALUE →
      ColRowExists c1_state.meta r.pk → r.col_version % 2 = 1) ∧
    (∀ pk, metaFind c1_state.meta pk CLOUDSYNC_TOMBSTONE_VALUE = none →
      (c1_state.meta.any fun r => decide (r.pk = pk)) = true →
      merge_get_local_cl c1_state.meta pk = 1) :=
  c1_sentinel_odd_when_present c1_cfg (by decide) c1_state
    (Relation.ReflTransGen.single
      (Step.local_insert initialState 7 [SQLiteValue.integer 20] (by decide) (by decide)))

/-- C2 witness: the cross-class comparison NULL vs INTEGER evaluated
through the amended ordering theorem. -/
theorem value_compare_descending_type_code_witness :
    dbutils_value_compare (some SQLiteValue.null) (some (SQLiteValue.integer 3)) =
      sqlite_value_type (SQLiteValue.integer 3) - sqlite_value_type SQLiteValue.null :=
  value_compare_descending_type_code.1 SQLiteValue.null (SQLiteValue.integer 3) (by decide)

end CloudSync
